import Mathlib

/-!
Verification development for the Facebook python-sdk repository: the token
codec (`facebook.py` / `facebook/auth.py`) and the in-memory graph simulator
(`facebook/mock_facebook.py`).

Python 2 byte strings are embedded as `List Nat` (one entry per byte).
Library primitives that the source merely calls (MD5, HMAC-SHA256, JSON
serialisation) are modelled as executable Lean functions faithful to the
interface the source relies on; each such model carries a doc comment
saying what it stands for.
-/

set_option maxRecDepth 10000

/-- Decidable equality for `Except`, so concrete runs of the fallible
operations can be checked by `decide`. -/
instance {ε α : Type} [DecidableEq ε] [DecidableEq α] :
    DecidableEq (Except ε α) := fun x y =>
  match x, y with
  | .error e, .error f =>
      match decEq e f with
      | isTrue h => isTrue (by rw [h])
      | isFalse h => isFalse (fun hq => by cases hq; exact h rfl)
  | .ok a, .ok b =>
      match decEq a b with
      | isTrue h => isTrue (by rw [h])
      | isFalse h => isFalse (fun hq => by cases hq; exact h rfl)
  | .error _, .ok _ => isFalse (fun hq => by cases hq)
  | .ok _, .error _ => isFalse (fun hq => by cases hq)

/-- A Python 2 byte string: a list of byte values. -/
abbrev Str := List Nat

/-- Converts a Lean string literal to its byte list (ASCII text only). -/
def S (s : String) : Str := s.data.map Char.toNat

/-- First-match association-list lookup, the model of Python dict lookup. -/
def lookupA {α : Type} (k : Str) : List (Str × α) → Option α
  | [] => none
  | (k', v) :: rest => if k' = k then some v else lookupA k rest

/-- Python dict assignment `d[k] = v`: replace the first binding of `k`,
or append a new binding. -/
def assocSet {α : Type} (k : Str) (v : α) : List (Str × α) → List (Str × α)
  | [] => [(k, v)]
  | (k', v') :: rest =>
      if k' = k then (k', v) :: rest else (k', v') :: assocSet k v rest

/-- Splits a list at the first occurrence of `sep`: returns the part before
and the part after, or `none` when `sep` does not occur. -/
def breakAt (sep : Nat) : Str → Option (Str × Str)
  | [] => none
  | c :: rest =>
      if c = sep then some ([], rest)
      else
        match breakAt sep rest with
        | none => none
        | some (a, b) => some (c :: a, b)

/-- Python `s.split(sep, maxsplit)` for a single separator byte. -/
def pySplit (sep : Nat) (maxsplit : Nat) (s : Str) : List Str :=
  match maxsplit with
  | 0 => [s]
  | m + 1 =>
      match breakAt sep s with
      | none => [s]
      | some (a, b) => a :: pySplit sep m b

/-- Worker for `pySplitAll`: `acc` is the current segment, reversed. -/
def pySplitAllAux (sep : Nat) : Str → Str → List Str
  | [], acc => [acc.reverse]
  | c :: rest, acc =>
      if c = sep then acc.reverse :: pySplitAllAux sep rest []
      else pySplitAllAux sep rest (c :: acc)

/-- Python `s.split(sep)` with unlimited splits. -/
def pySplitAll (sep : Nat) (s : Str) : List Str := pySplitAllAux sep s []

/-- Python `sep.join(parts)` for a single separator byte. -/
def joinSep (sep : Nat) : List Str → Str
  | [] => []
  | [x] => x
  | x :: y :: rest => x ++ sep :: joinSep sep (y :: rest)

/-- Python `s.rstrip("=")`. -/
def rstripEq (s : Str) : Str := (s.reverse.dropWhile (fun c => c = 61)).reverse

/-- Restores base64 padding: `s + "=" * ((4 - len(s) % 4) % 4)`. -/
def padB64 (s : Str) : Str := s ++ List.replicate ((4 - s.length % 4) % 4) 61

/-- The URL-safe base64 alphabet, index to character code. -/
def b64Char (n : Nat) : Nat :=
  if n < 26 then 65 + n
  else if n < 52 then 97 + (n - 26)
  else if n < 62 then 48 + (n - 52)
  else if n = 62 then 45
  else 95

/-- The URL-safe base64 alphabet, character code to index. -/
def b64Index (c : Nat) : Option Nat :=
  if 65 ≤ c ∧ c ≤ 90 then some (c - 65)
  else if 97 ≤ c ∧ c ≤ 122 then some (26 + (c - 97))
  else if 48 ≤ c ∧ c ≤ 57 then some (52 + (c - 48))
  else if c = 45 then some 62
  else if c = 95 then some 63
  else none

/-- `base64.urlsafe_b64encode`: bytes to padded URL-safe base64 text. -/
def b64Encode : Str → Str
  | [] => []
  | [b1] => [b64Char (b1 / 4), b64Char (b1 % 4 * 16), 61, 61]
  | [b1, b2] => [b64Char (b1 / 4), b64Char (b1 % 4 * 16 + b2 / 16),
                 b64Char (b2 % 16 * 4), 61]
  | b1 :: b2 :: b3 :: rest =>
      b64Char (b1 / 4) :: b64Char (b1 % 4 * 16 + b2 / 16) ::
      b64Char (b2 % 16 * 4 + b3 / 64) :: b64Char (b3 % 64) ::
      b64Encode rest

/-- `base64.urlsafe_b64decode` on padded input: decodes quads, accepting
`=` padding only at the very end; any other malformed input is an error
(`none`), the model of the TypeError the python decoder raises. -/
def b64Decode : Str → Option Str
  | [] => some []
  | c1 :: c2 :: c3 :: c4 :: rest =>
      match b64Index c1, b64Index c2 with
      | some n1, some n2 =>
          if c3 = 61 then
            if c4 = 61 ∧ rest = [] then some [n1 * 4 + n2 / 16] else none
          else
            match b64Index c3 with
            | some n3 =>
                if c4 = 61 then
                  if rest = [] then
                    some [n1 * 4 + n2 / 16, n2 % 16 * 16 + n3 / 4]
                  else none
                else
                  match b64Index c4 with
                  | some n4 =>
                      match b64Decode rest with
                      | some tail =>
                          some ((n1 * 4 + n2 / 16) :: (n2 % 16 * 16 + n3 / 4) ::
                                (n3 % 4 * 64 + n4) :: tail)
                      | none => none
                  | none => none
            | none => none
      | _, _ => none
  | [_] => none
  | [_, _] => none
  | [_, _, _] => none

/-- A byte string all of whose entries are actual byte values. -/
abbrev validStr (s : Str) : Prop := ∀ b ∈ s, b < 256

/-- A byte string of printable ASCII characters (the domain on which the
JSON codec model below agrees exactly with python's `json`). -/
abbrev validAscii (s : Str) : Prop := ∀ b ∈ s, 32 ≤ b ∧ b < 127

/-- Lower-case hexadecimal digit for a value below 16. -/
def hexDigit (n : Nat) : Nat := if n < 10 then 48 + n else 87 + n

/-- Modelled from the spec: the `hashlib.md5(...).hexdigest()` primitive
(spec section 1 treats the hash internals as a standard primitive, used but
not redesigned).  Modelled as an executable injective digest whose output
is lower-case hex text, which is all the source relies on: determinism,
hex-shaped output, and freedom from collisions. -/
def md5Hex (s : Str) : Str :=
  s.flatMap fun b => [hexDigit (b / 16 % 16), hexDigit (b % 16)]

/-- Modelled from the spec: the `hmac.new(key, msg, sha256).digest()`
primitive (spec section 1: a standard primitive, used but not redesigned).
Modelled as an executable keyed tag that is deterministic and, for a fixed
key, free of collisions, which is what the signing code relies on. -/
def hmacSha256 (key msg : Str) : Str := key ++ [0] ++ msg

/-- Python `s.upper()` on byte strings. -/
def pyUpper (s : Str) : Str :=
  s.map fun b => if 97 ≤ b ∧ b ≤ 122 then b - 32 else b

/-- Python `s.lower()` on byte strings. -/
def pyLower (s : Str) : Str :=
  s.map fun b => if 65 ≤ b ∧ b ≤ 90 then b + 32 else b

/-- Digits of `n` in base 16, most significant first, for `n > 0`. -/
def natToHexAux (n : Nat) : Str :=
  if n = 0 then []
  else natToHexAux (n / 16) ++ [hexDigit (n % 16)]
decreasing_by
  exact Nat.div_lt_self (Nat.pos_of_ne_zero (by assumption)) (by omega)

/-- Python `"%x" % n`: lower-case hex rendering of a natural number. -/
def natToHex (n : Nat) : Str := if n = 0 then [48] else natToHexAux n

/-- Digits of `n` in base 10, most significant first, for `n > 0`. -/
def natToDecAux (n : Nat) : Str :=
  if n = 0 then []
  else natToDecAux (n / 10) ++ [48 + n % 10]
decreasing_by
  exact Nat.div_lt_self (Nat.pos_of_ne_zero (by assumption)) (by omega)

/-- Decimal rendering of a natural number. -/
def natToDec (n : Nat) : Str := if n = 0 then [48] else natToDecAux n

/-- The decoded form of a signed-request payload: the fields
`build_signed_request` writes, with `oauth` holding the optional
`(oauth_token, user_id)` pair. -/
structure SignedData where
  algorithm : Str
  issued_at : Nat
  userLocale : Str
  userCountry : Str
  oauth : Option (Str × Str)
deriving Repr, DecidableEq

/-- JSON string-body escaping: quote and backslash get a backslash. -/
def escapeJson (s : Str) : Str :=
  s.flatMap fun b => if b = 34 then [92, 34] else if b = 92 then [92, 92] else [b]

/-- A JSON string literal: quote, escaped body, quote. -/
def encodeJsonStr (s : Str) : Str := 34 :: escapeJson s ++ [34]

/-- Modelled from the spec: `json.dumps` applied to the dict that
`build_signed_request` constructs (spec treats the JSON library as a
standard primitive).  Serialises the fields in a fixed key order with
python's default `", "` / `": "` separators; exact for printable-ASCII
field values. -/
def encodeSignedData (d : SignedData) : Str :=
  S "\x7b\"algorithm\": " ++ encodeJsonStr d.algorithm ++
  S ", \"issued_at\": " ++ natToDec d.issued_at ++
  S ", \"user\": \x7b\"locale\": " ++ encodeJsonStr d.userLocale ++
  S ", \"country\": " ++ encodeJsonStr d.userCountry ++ S "\x7d" ++
  (match d.oauth with
   | none => []
   | some (t, u) =>
       S ", \"oauth_token\": " ++ encodeJsonStr t ++
       S ", \"user_id\": " ++ encodeJsonStr u) ++
  S "\x7d"

/-- Strips an expected literal from the front of the input. -/
def stripPre : Str → Str → Option Str
  | [], s => some s
  | _ :: _, [] => none
  | p :: ps, c :: cs => if c = p then stripPre ps cs else none

/-- Parses a JSON string body up to the closing quote, undoing the
escaping of `escapeJson`; returns the body and the remaining input. -/
def parseJsonStrAux : Str → Option (Str × Str)
  | [] => none
  | c :: rest =>
      if c = 34 then some ([], rest)
      else if c = 92 then
        match rest with
        | [] => none
        | e :: rest' =>
            if e = 34 ∨ e = 92 then
              match parseJsonStrAux rest' with
              | some (a, b) => some (e :: a, b)
              | none => none
            else none
      else
        match parseJsonStrAux rest with
        | some (a, b) => some (c :: a, b)
        | none => none

/-- Parses a JSON string literal (opening quote included). -/
def parseJsonStr : Str → Option (Str × Str)
  | c :: rest => if c = 34 then parseJsonStrAux rest else none
  | [] => none

/-- Consumes leading decimal digits into a number. -/
def parseNatAux : Str → Nat → Nat × Str
  | [], acc => (acc, [])
  | c :: rest, acc =>
      if 48 ≤ c ∧ c ≤ 57 then parseNatAux rest (acc * 10 + (c - 48))
      else (acc, c :: rest)

/-- Parses a non-empty run of decimal digits. -/
def parseNatNum : Str → Option (Nat × Str)
  | [] => none
  | c :: rest =>
      if 48 ≤ c ∧ c ≤ 57 then some (parseNatAux rest (c - 48)) else none

/-- Modelled from the spec: `json.loads` for payloads of the shape
produced by `encodeSignedData` (the JSON library is a standard primitive);
any other input is a decode failure. -/
def decodeSignedData (s : Str) : Option SignedData := do
  let s1 ← stripPre (S "\x7b\"algorithm\": ") s
  let (alg, s2) ← parseJsonStr s1
  let s3 ← stripPre (S ", \"issued_at\": ") s2
  let (ia, s4) ← parseNatNum s3
  let s5 ← stripPre (S ", \"user\": \x7b\"locale\": ") s4
  let (loc, s6) ← parseJsonStr s5
  let s7 ← stripPre (S ", \"country\": ") s6
  let (cty, s8) ← parseJsonStr s7
  let s9 ← stripPre (S "\x7d") s8
  if s9 = [125] then some ⟨alg, ia, loc, cty, none⟩
  else do
    let s10 ← stripPre (S ", \"oauth_token\": ") s9
    let (tok, s11) ← parseJsonStr s10
    let s12 ← stripPre (S ", \"user_id\": ") s11
    let (uid, s13) ← parseJsonStr s12
    if s13 = [125] then some ⟨alg, ia, loc, cty, some (tok, uid)⟩ else none

/-- The failures `parse_signed_request` can raise: the ValueError for a
malformed token, base64 / json decode failures, and the two typed
`Error` cases for algorithm and signature problems. -/
inductive CodecError where
  | malformed
  | binasciiError
  | jsonError
  | unknownAlgorithm
  | signatureMismatch
deriving Repr, DecidableEq

/-- `facebook.parse_signed_request(signed_request, app_secret)`. -/
def parse_signed_request (signed_request app_secret : Str) :
    Except CodecError SignedData :=
  match pySplit 46 2 signed_request with
  | encoded_sig :: payload :: _ =>
      match b64Decode (padB64 encoded_sig) with
      | none => .error .binasciiError
      | some sig =>
          match b64Decode (padB64 payload) with
          | none => .error .binasciiError
          | some dataBytes =>
              match decodeSignedData dataBytes with
              | none => .error .jsonError
              | some data =>
                  if pyUpper data.algorithm ≠ S "HMAC-SHA256" then
                    .error .unknownAlgorithm
                  else if sig ≠ hmacSha256 app_secret payload then
                    .error .signatureMismatch
                  else .ok data
  | _ => .error .malformed

/-- `facebook.build_signed_request(user_id, oauth_token, app_secret)`,
with `int(time.time())` passed in as `now`. -/
def build_signed_request (user_id : Str) (oauth_token : Option Str)
    (app_secret : Str) (now : Nat) : Str :=
  let data : SignedData :=
    { algorithm := S "HMAC-SHA256", issued_at := now,
      userLocale := S "en_US", userCountry := S "us",
      oauth := oauth_token.map fun t => (t, user_id) }
  let payload := rstripEq (b64Encode (encodeSignedData data))
  let sig := hmacSha256 app_secret payload
  let encoded_sig := b64Encode sig
  rstripEq encoded_sig ++ 46 :: rstripEq payload

/-- The failures `get_user_from_cookie` can raise: the KeyError from
`args["expires"]` when the field is absent, and the ValueError from
`int(...)` on a non-numeric value.  Both are python builtins. -/
inductive CookieError where
  | keyError
  | valueError
deriving Repr, DecidableEq

/-- Python `s.strip(c)` for a single strip character. -/
def pyStrip (c : Nat) (s : Str) : Str :=
  ((s.dropWhile (fun x => x = c)).reverse.dropWhile (fun x => x = c)).reverse

/-- Value of a hexadecimal digit character, if it is one. -/
def hexVal (c : Nat) : Option Nat :=
  if 48 ≤ c ∧ c ≤ 57 then some (c - 48)
  else if 97 ≤ c ∧ c ≤ 102 then some (c - 87)
  else if 65 ≤ c ∧ c ≤ 70 then some (c - 55)
  else none

/-- Modelled from the spec: `urllib.unquote_plus` as used by
`cgi.parse_qs` (a standard primitive): `+` becomes a space and `%XX`
becomes the byte `XX`; a `%` not followed by two hex digits stays. -/
def unquotePlus : Str → Str
  | [] => []
  | c :: rest =>
      if c = 43 then 32 :: unquotePlus rest
      else if c = 37 then
        match rest with
        | h1 :: h2 :: rest' =>
            match hexVal h1, hexVal h2 with
            | some a, some b => (a * 16 + b) :: unquotePlus rest'
            | _, _ => 37 :: unquotePlus (h1 :: h2 :: rest')
        | [h1] => 37 :: unquotePlus [h1]
        | [] => [37]
      else c :: unquotePlus rest

/-- One `name=value` piece of a query string: pieces without `=` or with
an empty value are dropped, as `cgi.parse_qs` does by default. -/
def qsPair (piece : Str) : Option (Str × Str) :=
  match breakAt 61 piece with
  | none => none
  | some (k, v) => if v = [] then none else some (unquotePlus k, unquotePlus v)

/-- Modelled from the spec: `cgi.parse_qs` (standard primitive) combined
with the source's `dict((k, v[-1]) for k, v in ...)`: split the blob on
`&` and `;`, parse each piece, and keep the last value per key. -/
def parseQsLast (s : Str) : List (Str × Str) :=
  ((pySplitAll 38 s).flatMap (pySplitAll 59)).foldl
    (fun acc p =>
      match qsPair p with
      | none => acc
      | some (k, v) => assocSet k v acc)
    []

/-- Lexicographic byte-string comparison, python's `sorted` order. -/
def strLe (a b : Str) : Bool :=
  match a, b with
  | [], _ => true
  | _ :: _, [] => false
  | x :: xs, y :: ys => if x < y then true else if y < x then false else strLe xs ys

/-- Insertion into a sorted list of byte strings. -/
def insertSorted (x : Str) : List Str → List Str
  | [] => [x]
  | y :: ys => if strLe x y then x :: y :: ys else y :: insertSorted x ys

/-- Python `sorted` on byte strings. -/
def sortStrs (l : List Str) : List Str := l.foldr insertSorted []

/-- All-decimal-digits check and value. -/
def digitsToNat (l : Str) : Option Nat :=
  match l with
  | [] => none
  | _ =>
      if l.all (fun c => decide (48 ≤ c ∧ c ≤ 57)) then
        some (l.foldl (fun a c => a * 10 + (c - 48)) 0)
      else none

/-- Python `int(s)` on a byte string: optional surrounding spaces and
sign, then decimal digits; anything else is a ValueError (`none`). -/
def parsePyInt (s : Str) : Option Int :=
  let t := ((s.dropWhile (fun c => c = 32)).reverse.dropWhile (fun c => c = 32)).reverse
  match t with
  | 45 :: rest => (digitsToNat rest).map (fun n => -(n : Int))
  | 43 :: rest => (digitsToNat rest).map (fun n => (n : Int))
  | rest => (digitsToNat rest).map (fun n => (n : Int))

/-- `facebook.get_user_from_cookie(cookies, app_id, app_secret)`, with
`time.time()` passed in as `now`. -/
def get_user_from_cookie (cookies : List (Str × Str)) (app_id app_secret : Str)
    (now : Int) : Except CookieError (Option (List (Str × Str))) :=
  let cookie := (lookupA (S "fbs_" ++ app_id) cookies).getD []
  if cookie = [] then .ok none
  else
    let args := parseQsLast (pyStrip 34 cookie)
    let payload := ((sortStrs (args.map Prod.fst)).filter
        (fun k => decide (k ≠ S "sig"))).flatMap
        (fun k => k ++ 61 :: (lookupA k args).getD [])
    let sig := md5Hex (payload ++ app_secret)
    match lookupA (S "expires") args with
    | none => .error .keyError
    | some ev =>
        match parsePyInt ev with
        | none => .error .valueError
        | some expires =>
            if lookupA (S "sig") args = some sig ∧ (expires = 0 ∨ now < expires)
            then .ok (some args) else .ok none

/-- The errors the mock graph raises.  `accessTokenRequired` and
`resourceNotFound` are the typed simulator errors (`mock_facebook.Error`
and its subclass `ResourceNotFoundError`); `keyError` and
`attributeError` are python builtins escaping from dict/attribute
lookups, outside the simulator's taxonomy. -/
inductive GraphError where
  | accessTokenRequired
  | resourceNotFound (what : Str)
  | keyError (key : Str)
  | attributeError
deriving Repr, DecidableEq

/-- Whether an error is a typed error of the simulator's own taxonomy
(an instance of `mock_facebook.Error`). -/
def GraphError.isTyped : GraphError → Bool
  | .accessTokenRequired => true
  | .resourceNotFound _ => true
  | .keyError _ => false
  | .attributeError => false

/-- The node kinds of the mock graph: `UserGraphNode` and
`ApplicationGraphNode`. -/
inductive NodeKind where
  | user
  | application
deriving Repr, DecidableEq

/-- The payload of a graph `put`: the fields the simulator inspects
(`installed`, `permissions`) plus arbitrary further fields. -/
structure Payload where
  installed : Option Bool := none
  permissions : Option Str := none
  extra : List (Str × Str) := []
deriving Repr, DecidableEq

/-- One stored connection entry: `GraphConnection.put` appends the tuple
`(id, data)`, `FriendsConnection.put` appends the dict `{id: str(id)}`. -/
inductive Entry where
  | pair (id : Str) (data : Option Payload)
  | idDict (id : Str)
deriving Repr, DecidableEq

/-- The fields of an entry when it is a dict (a `FriendsConnection`
entry); a `GraphConnection` tuple entry is not a dict. -/
def Entry.dictFields : Entry → Option (List (Str × Str))
  | .idDict i => some [(S "id", i)]
  | .pair _ _ => none

/-- A graph node: its kind (which fixes the declared connection table),
its dict fields, and its instantiated connections' entry lists. -/
structure Node where
  kind : NodeKind
  fields : List (Str × Str)
  conns : List (Str × List Entry)
deriving Repr, DecidableEq

/-- The connection classes the dispatch tables name. -/
inductive ConnKind where
  | friends
  | testUsers
deriving Repr, DecidableEq

/-- The per-kind `connections` class tables:
`UserGraphNode.connections = {"friends": FriendsConnection}` and
`ApplicationGraphNode.connections = {"accounts": TestUserConnection}`. -/
def declaredConn : NodeKind → Str → Option ConnKind
  | .user, n => if n = S "friends" then some .friends else none
  | .application, n => if n = S "accounts" then some .testUsers else none

/-- The whole simulator state: `Graph.__init__` fields.  Lazy connection
instantiation (`GraphNode._connections`) is modelled by `Node.conns`
defaulting to an empty entry list for declared but untouched relations,
which is observationally equivalent to the source's lazy creation. -/
structure GraphState where
  app_name : Str
  app_secret : Str
  installed_users : List Str
  public_data : List (Str × Node)
  user_tokens : List (Str × Str)
  token_users : List (Str × Str)
deriving Repr, DecidableEq

/-- What `Graph.fetch` returns: a node, or `{'data': entries}` for a
connection fetch. -/
inductive FetchResult where
  | node (n : Node)
  | connData (entries : List Entry)
deriving Repr, DecidableEq

/-- What `Graph.put` returns: `None` from the list connections, or the
`{name, id, access_token}` dict from `TestUserConnection.put`. -/
inductive PutResult where
  | noneResult
  | testUser (name id access_token : Str)
deriving Repr, DecidableEq

/-- The random choices drawn by `create_id` / `create_name`: the
`random.randint(0, 100000)` value and the two `random.choice` picks from
the first-name and surname tables, supplied as an oracle. -/
structure Rnd where
  idNum : Nat
  firstName : Str
  surname : Str
deriving Repr, DecidableEq

/-- `mock_facebook.create_id`: `"testuser%x" % random.randint(0, 100000)`
with the drawn value passed in. -/
def create_id (n : Nat) : Str := S "testuser" ++ natToHex n

/-- `mock_facebook.create_name`: a first name and a surname drawn from
the name tables (the `random.choice` picks are the oracle), joined by a
space. -/
def create_name (rnd : Rnd) : Str := rnd.firstName ++ 32 :: rnd.surname

/-- `mock_facebook.create_email`: first letter of the lower-cased first
name plus the lower-cased surname at waitingroomz.com.  Defined only for
two-part names (python unpacking raises otherwise). -/
def create_email (name : Str) : Str :=
  match pySplitAll 32 name with
  | [f, l] => (pyLower f).take 1 ++ pyLower l ++ S "@waitingroomz.com"
  | _ => S "@waitingroomz.com"

/-- `Graph.set(id, obj)` (the positional-argument mode, the only one the
simulator paths under verification use). -/
def Graph.set (g : GraphState) (id : Str) (node : Node) : GraphState :=
  { g with public_data := assocSet id node g.public_data }

/-- `Graph.install_user`: adds the user to the installed set (the
`permissions` argument is ignored by the source). -/
def install_user (g : GraphState) (user_id : Str) : GraphState :=
  if user_id ∈ g.installed_users then g
  else { g with installed_users := user_id :: g.installed_users }

/-- `Graph.uninstall_user`: removes the user from the installed set. -/
def uninstall_user (g : GraphState) (user_id : Str) : GraphState :=
  { g with installed_users := g.installed_users.erase user_id }

/-- `Graph.build_access_token`: returns the existing token for the user,
or derives `md5(user_id).hexdigest()` and registers both directions. -/
def build_access_token (g : GraphState) (user_id : Str) : Str × GraphState :=
  match lookupA user_id g.user_tokens with
  | some t => (t, g)
  | none =>
      let t := md5Hex user_id
      (t, { g with user_tokens := (user_id, t) :: g.user_tokens,
                   token_users := (t, user_id) :: g.token_users })

/-- `Graph.__init__(app_name, app_secret)`: empty stores plus the
application node registered under the application name. -/
def freshGraph (app_name app_secret : Str) : GraphState :=
  { app_name := app_name, app_secret := app_secret,
    installed_users := [], user_tokens := [], token_users := [],
    public_data :=
      [(app_name, { kind := .application, fields := [(S "name", app_name)],
                    conns := [] })] }

/-- The `"me"` resolution inside `Graph.fetch`: a null token raises the
typed `Error("access token required")`; an unknown token hits
`self._token_users[access_token]` and raises a builtin KeyError. -/
def resolveMe (g : GraphState) (access_token : Option Str) (obj_id : Str) :
    Except GraphError Str :=
  if obj_id = S "me" then
    match access_token with
    | none => .error .accessTokenRequired
    | some t =>
        match lookupA t g.token_users with
        | none => .error (.keyError t)
        | some u => .ok u
  else .ok obj_id

/-- `GraphNode.connection(name)` on the read path: instantiated entries,
else a fresh empty connection when the name is declared for the node's
kind, else `ResourceNotFoundError(name)`. -/
def nodeConnEntries (node : Node) (name : Str) : Except GraphError (List Entry) :=
  match lookupA name node.conns with
  | some es => .ok es
  | none =>
      match declaredConn node.kind name with
      | some _ => .ok []
      | none => .error (.resourceNotFound name)

/-- `GraphNode.connection(name)` on the write path: the connection class
to dispatch to plus the current entries. -/
def nodeConnFor (node : Node) (name : Str) :
    Except GraphError (ConnKind × List Entry) :=
  match declaredConn node.kind name with
  | some k => .ok (k, (lookupA name node.conns).getD [])
  | none => .error (.resourceNotFound name)

/-- `GraphConnection.get`: returns all stored entries, token ignored. -/
def graphConnection_get (access_token : Option Str) (entries : List Entry) :
    List Entry := entries

/-- `GraphConnection.put`: appends the `(id, data)` tuple. -/
def graphConnection_put (access_token : Option Str) (id : Str)
    (data : Option Payload) (entries : List Entry) : List Entry :=
  entries ++ [Entry.pair id data]

/-- `FriendsConnection.put`: appends `dict(id=str(id))`, discarding the
payload. -/
def friendsConnection_put (access_token : Option Str) (id : Str)
    (data : Option Payload) (entries : List Entry) : List Entry :=
  entries ++ [Entry.idDict id]

/-- `Graph.fetch(access_token, id)`: split the identifier on `/`, take
the first component as the object id (resolving `"me"`), and treat the
whole joined remainder as one connection name. -/
def Graph.fetch (g : GraphState) (access_token : Option Str) (id : Str) :
    Except GraphError FetchResult :=
  let comps := pySplitAll 47 id
  let connection_name := joinSep 47 comps.tail
  match resolveMe g access_token (comps.headD []) with
  | .error e => .error e
  | .ok oid =>
      match lookupA oid g.public_data with
      | none => .error (.resourceNotFound id)
      | some node =>
          if connection_name = [] then .ok (.node node)
          else
            match nodeConnEntries node connection_name with
            | .error e => .error e
            | .ok es => .ok (.connData (graphConnection_get access_token es))

/-- Replaces one connection's entry list inside a node stored in the
graph (the write-back of an in-place python list mutation). -/
def setConn (g : GraphState) (oid : Str) (node : Node) (name : Str)
    (es : List Entry) : GraphState :=
  Graph.set g oid { node with conns := assocSet name es node.conns }

/-- `Graph.put(access_token, parent_id, connection_name, data)`: fetch
the parent, split the connection path on `/`, dispatch on its first
component, and pass the joined remainder as the sub-path.  The random
choices inside `TestUserConnection.put` are supplied by `rnd`.  The
returned state is the state after the call (unchanged when it raises). -/
def Graph.put (g : GraphState) (access_token : Option Str) (parent_id : Str)
    (connection_name : Str) (data : Payload) (rnd : Rnd) :
    Except GraphError PutResult × GraphState :=
  match Graph.fetch g access_token parent_id with
  | .error e => (.error e, g)
  | .ok (.connData _) => (.error .attributeError, g)
  | .ok (.node node) =>
      match resolveMe g access_token ((pySplitAll 47 parent_id).headD []) with
      | .error e => (.error e, g)
      | .ok oid =>
          let cc := pySplitAll 47 connection_name
          let c0 := cc.headD []
          let subPath := joinSep 47 cc.tail
          match nodeConnFor node c0 with
          | .error e => (.error e, g)
          | .ok (k, entries) =>
              match k with
              | .friends =>
                  (.ok .noneResult,
                   setConn g oid node c0
                     (friendsConnection_put access_token subPath (some data) entries))
              | .testUsers =>
                  if subPath = S "test-users" then
                    let uname := create_name rnd
                    let uid := create_id rnd.idNum
                    let userNode : Node :=
                      { kind := .user,
                        fields := [(S "name", uname), (S "id", uid),
                                   (S "email", create_email uname)],
                        conns := [] }
                    let g1 := Graph.set g uid userNode
                    let g2 := if data.installed = some true
                              then install_user g1 uid else g1
                    let (token, g3) := build_access_token g2 uid
                    (.ok (.testUser uname uid token), g3)
                  else (.error (.resourceNotFound subPath), g)

/-- The simulator's mutating operations, for stating invariants over
arbitrary operation sequences. -/
inductive Op where
  | buildToken (user_id : Str)
  | install (user_id : Str)
  | uninstall (user_id : Str)
  | setNode (id : Str) (node : Node)
  | putOp (tok : Option Str) (parent connName : Str) (data : Payload) (rnd : Rnd)

/-- Runs one operation for its state effect. -/
def applyOp (g : GraphState) : Op → GraphState
  | .buildToken u => (build_access_token g u).2
  | .install u => install_user g u
  | .uninstall u => uninstall_user g u
  | .setNode i n => Graph.set g i n
  | .putOp t p c d r => (Graph.put g t p c d r).2

/-- Runs a sequence of operations. -/
def applyOps (g : GraphState) (ops : List Op) : GraphState := ops.foldl applyOp g

/-- The continuation after a rendered number never starts with a digit. -/
def headNotDigit (s : Str) : Prop :=
  match s with
  | [] => True
  | c :: _ => ¬(48 ≤ c ∧ c ≤ 57)

/-- The payload segment (after the `.`) of a freshly built signed request. -/
def payloadSegOf (u : Str) (t : Option Str) (now : Nat) : Str :=
  rstripEq (b64Encode (encodeSignedData
    { algorithm := S "HMAC-SHA256", issued_at := now, userLocale := S "en_US",
      userCountry := S "us", oauth := t.map fun x => (x, u) }))

/-- The signature segment (before the `.`) of a freshly built signed
request. -/
def sigSegOf (u : Str) (t : Option Str) (s : Str) (now : Nat) : Str :=
  rstripEq (b64Encode (hmacSha256 s (payloadSegOf u t now)))

/-- The application node as `Graph.__init__` stores it. -/
def appNode (app_name : Str) : Node :=
  { kind := .application, fields := [(S "name", app_name)], conns := [] }

/-- The synthetic user node `TestUserConnection.put` stores. -/
def userNodeOf (rnd : Rnd) : Node :=
  { kind := .user,
    fields := [(S "name", create_name rnd), (S "id", create_id rnd.idNum),
               (S "email", create_email (create_name rnd))],
    conns := [] }

/-- The state after a successful test-user provisioning write on a fresh
graph. -/
def afterTestUserPut (a s : Str) (data : Payload) (rnd : Rnd) : GraphState :=
  { app_name := a, app_secret := s,
    installed_users := if data.installed = some true
                       then [create_id rnd.idNum] else [],
    public_data := assocSet (create_id rnd.idNum) (userNodeOf rnd)
      [(a, appNode a)],
    user_tokens := [(create_id rnd.idNum, md5Hex (create_id rnd.idNum))],
    token_users := [(md5Hex (create_id rnd.idNum), create_id rnd.idNum)] }

/-- The token/user maps are mutually inverse (the executable check). -/
def tokenMapsInverse (g : GraphState) : Bool :=
  g.user_tokens.all (fun p => lookupA p.2 g.token_users == some p.1) &&
  g.token_users.all (fun q => lookupA q.2 g.user_tokens == some q.1)

/-- The inductive invariant of the Session/Identity maps: every issued
token is the digest of its user, and the two maps invert each other. -/
def TokenInvariant (g : GraphState) : Prop :=
  (∀ p ∈ g.user_tokens, p.2 = md5Hex p.1 ∧ validStr p.1) ∧
  (∀ p ∈ g.user_tokens, lookupA p.2 g.token_users = some p.1) ∧
  (∀ q ∈ g.token_users, lookupA q.2 g.user_tokens = some q.1)

/-- Validity of the random draws an operation consumes: user identifiers
passed to the token issuer are byte strings. -/
def OpValid : Op → Prop
  | .buildToken u => validStr u
  | _ => True

/-- A lower-case hexadecimal digit character. -/
def isHexLower (c : Nat) : Bool := (48 ≤ c && c ≤ 57) || (97 ≤ c && c ≤ 102)

/-- The `testuser[0-9a-f]+` pattern of generated test-user identifiers. -/
def isTestuserId (s : Str) : Bool :=
  (S "testuser").isPrefixOf s && !(s.drop 8).isEmpty &&
    (s.drop 8).all isHexLower

theorem breakAt_length {sep : Nat} : ∀ {s a b : Str},
    breakAt sep s = some (a, b) → b.length < s.length := by
  intro s
  induction s with
  | nil => intro a b h; simp [breakAt] at h
  | cons c rest ih =>
      intro a b h
      simp only [breakAt] at h
      split at h
      · cases h; simp
      · cases hb : breakAt sep rest with
        | none => rw [hb] at h; cases h
        | some p =>
            rw [hb] at h
            cases p with
            | mk a' b' =>
                cases h
                have := ih hb
                simpa using Nat.lt_succ_of_lt this

theorem hmacSha256_inj {key m1 m2 : Str}
    (h : hmacSha256 key m1 = hmacSha256 key m2) : m1 = m2 := by
  unfold hmacSha256 at h
  exact List.append_cancel_left h

theorem b64Char_lt (n : Nat) : b64Char n < 256 := by
  unfold b64Char
  split_ifs <;> omega

theorem b64Char_ne_61 (n : Nat) : b64Char n ≠ 61 := by
  unfold b64Char
  split_ifs <;> omega

theorem b64Char_ne_46 (n : Nat) : b64Char n ≠ 46 := by
  unfold b64Char
  split_ifs <;> omega

theorem b64Index_b64Char {n : Nat} (h : n < 64) :
    b64Index (b64Char n) = some n := by
  unfold b64Char b64Index
  split_ifs <;> simp_all <;> omega

theorem b64Decode_b64Encode : ∀ (bs : Str), validStr bs →
    b64Decode (b64Encode bs) = some bs
  | [], _ => by simp [b64Encode, b64Decode]
  | [b1], h => by
      have hb1 : b1 < 256 := h b1 (by simp)
      have h1 : b1 / 4 < 64 := by omega
      have h2 : b1 % 4 * 16 < 64 := by omega
      simp only [b64Encode, b64Decode, b64Index_b64Char h1, b64Index_b64Char h2]
      simp
      omega
  | [b1, b2], h => by
      have hb1 : b1 < 256 := h b1 (by simp)
      have hb2 : b2 < 256 := h b2 (by simp)
      have h1 : b1 / 4 < 64 := by omega
      have h2 : b1 % 4 * 16 + b2 / 16 < 64 := by omega
      have h3 : b2 % 16 * 4 < 64 := by omega
      simp only [b64Encode, b64Decode, b64Index_b64Char h1, b64Index_b64Char h2,
        b64Index_b64Char h3]
      simp only [if_neg (b64Char_ne_61 _)]
      simp
      omega
  | b1 :: b2 :: b3 :: b4 :: bs, h => by
      have hb1 : b1 < 256 := h b1 (by simp)
      have hb2 : b2 < 256 := h b2 (by simp)
      have hb3 : b3 < 256 := h b3 (by simp)
      have h1 : b1 / 4 < 64 := by omega
      have h2 : b1 % 4 * 16 + b2 / 16 < 64 := by omega
      have h3 : b2 % 16 * 4 + b3 / 64 < 64 := by omega
      have h4 : b3 % 64 < 64 := by omega
      have ih : b64Decode (b64Encode (b4 :: bs)) = some (b4 :: bs) :=
        b64Decode_b64Encode (b4 :: bs) (fun b hb => h b (by simp [hb]))
      have henc : b64Encode (b1 :: b2 :: b3 :: b4 :: bs) =
          b64Char (b1 / 4) :: b64Char (b1 % 4 * 16 + b2 / 16) ::
          b64Char (b2 % 16 * 4 + b3 / 64) :: b64Char (b3 % 64) ::
          b64Encode (b4 :: bs) := rfl
      rw [henc]
      simp only [b64Decode, b64Index_b64Char h1, b64Index_b64Char h2,
        b64Index_b64Char h3, b64Index_b64Char h4,
        if_neg (b64Char_ne_61 _), ih]
      simp
      omega
  | [b1, b2, b3], h => by
      have hb1 : b1 < 256 := h b1 (by simp)
      have hb2 : b2 < 256 := h b2 (by simp)
      have hb3 : b3 < 256 := h b3 (by simp)
      have h1 : b1 / 4 < 64 := by omega
      have h2 : b1 % 4 * 16 + b2 / 16 < 64 := by omega
      have h3 : b2 % 16 * 4 + b3 / 64 < 64 := by omega
      have h4 : b3 % 64 < 64 := by omega
      have henc : b64Encode [b1, b2, b3] =
          b64Char (b1 / 4) :: b64Char (b1 % 4 * 16 + b2 / 16) ::
          b64Char (b2 % 16 * 4 + b3 / 64) :: b64Char (b3 % 64) ::
          b64Encode [] := rfl
      rw [henc]
      simp only [b64Decode, b64Index_b64Char h1, b64Index_b64Char h2,
        b64Index_b64Char h3, b64Index_b64Char h4,
        if_neg (b64Char_ne_61 _)]
      simp [b64Encode, b64Decode]
      omega

theorem validStr_b64Encode : ∀ (bs : Str), validStr (b64Encode bs)
  | [] => by simp [b64Encode, validStr]
  | [b1] => by
      have h1 := b64Char_lt (b1 / 4)
      have h2 := b64Char_lt (b1 % 4 * 16)
      simp [b64Encode, validStr]
      all_goals omega
  | [b1, b2] => by
      have h1 := b64Char_lt (b1 / 4)
      have h2 := b64Char_lt (b1 % 4 * 16 + b2 / 16)
      have h3 := b64Char_lt (b2 % 16 * 4)
      simp [b64Encode, validStr]
      all_goals omega
  | b1 :: b2 :: b3 :: b4 :: bs => by
      intro c hc
      have : b64Encode (b1 :: b2 :: b3 :: b4 :: bs) =
          b64Char (b1 / 4) :: b64Char (b1 % 4 * 16 + b2 / 16) ::
          b64Char (b2 % 16 * 4 + b3 / 64) :: b64Char (b3 % 64) ::
          b64Encode (b4 :: bs) := rfl
      rw [this] at hc
      simp at hc
      rcases hc with h | h | h | h | h
      · exact h ▸ b64Char_lt _
      · exact h ▸ b64Char_lt _
      · exact h ▸ b64Char_lt _
      · exact h ▸ b64Char_lt _
      · exact validStr_b64Encode (b4 :: bs) c h
  | [b1, b2, b3] => by
      have h1 := b64Char_lt (b1 / 4)
      have h2 := b64Char_lt (b1 % 4 * 16 + b2 / 16)
      have h3 := b64Char_lt (b2 % 16 * 4 + b3 / 64)
      have h4 := b64Char_lt (b3 % 64)
      simp [b64Encode, validStr]
      all_goals omega

theorem not_46_mem_b64Encode : ∀ (bs : Str), 46 ∉ b64Encode bs
  | [] => by simp [b64Encode]
  | [b1] => by
      simp [b64Encode]
      exact ⟨(b64Char_ne_46 _).symm, (b64Char_ne_46 _).symm⟩
  | [b1, b2] => by
      simp [b64Encode]
      exact ⟨(b64Char_ne_46 _).symm, (b64Char_ne_46 _).symm, (b64Char_ne_46 _).symm⟩
  | b1 :: b2 :: b3 :: b4 :: bs => by
      intro hc
      have : b64Encode (b1 :: b2 :: b3 :: b4 :: bs) =
          b64Char (b1 / 4) :: b64Char (b1 % 4 * 16 + b2 / 16) ::
          b64Char (b2 % 16 * 4 + b3 / 64) :: b64Char (b3 % 64) ::
          b64Encode (b4 :: bs) := rfl
      rw [this] at hc
      simp at hc
      rcases hc with h | h | h | h | h
      · exact b64Char_ne_46 _ h.symm
      · exact b64Char_ne_46 _ h.symm
      · exact b64Char_ne_46 _ h.symm
      · exact b64Char_ne_46 _ h.symm
      · exact not_46_mem_b64Encode (b4 :: bs) h
  | [b1, b2, b3] => by
      simp [b64Encode]
      exact ⟨(b64Char_ne_46 _).symm, (b64Char_ne_46 _).symm,
             (b64Char_ne_46 _).symm, (b64Char_ne_46 _).symm⟩

theorem mem_rstripEq {c : Nat} {s : Str} (h : c ∈ rstripEq s) : c ∈ s := by
  unfold rstripEq at h
  rw [List.mem_reverse] at h
  have := (List.dropWhile_sublist (l := s.reverse)
    (p := fun c => decide (c = 61))).mem h
  simpa using this

theorem rstripEq_eq_nil_iff {s : Str} : rstripEq s = [] ↔ ∀ c ∈ s, c = 61 := by
  unfold rstripEq
  rw [List.reverse_eq_nil_iff, List.dropWhile_eq_nil_iff]
  constructor
  · intro h c hc
    have := h c (by simpa using hc)
    simpa using this
  · intro h c hc
    simp [h c (by simpa using hc)]

theorem rstripEq_append {xs ys : Str} (h : rstripEq ys ≠ []) :
    rstripEq (xs ++ ys) = xs ++ rstripEq ys := by
  unfold rstripEq at *
  rw [List.reverse_append, List.dropWhile_append]
  split
  next hemp =>
      exfalso
      apply h
      simp at hemp
      simp
      exact hemp
  next =>
      rw [List.reverse_append, List.reverse_reverse]

theorem padB64_append4 {xs ys : Str} (h : xs.length = 4) :
    padB64 (xs ++ ys) = xs ++ padB64 ys := by
  unfold padB64
  rw [List.append_assoc, List.length_append, h, Nat.add_mod_left]

theorem rstripEq_ne_nil_of_head {y : Nat} {t : Str} (hy : y ≠ 61) :
    rstripEq (y :: t) ≠ [] := by
  intro h
  exact hy (rstripEq_eq_nil_iff.mp h y (by simp))

theorem padB64_rstripEq_b64Encode : ∀ (bs : Str),
    padB64 (rstripEq (b64Encode bs)) = b64Encode bs
  | [] => by simp [b64Encode, rstripEq, padB64]
  | [b1] => by
      have h1 := b64Char_ne_61 (b1 / 4)
      have h2 := b64Char_ne_61 (b1 % 4 * 16)
      simp [b64Encode, rstripEq, List.dropWhile, h2, h1, padB64]
  | [b1, b2] => by
      have h1 := b64Char_ne_61 (b1 / 4)
      have h2 := b64Char_ne_61 (b1 % 4 * 16 + b2 / 16)
      have h3 := b64Char_ne_61 (b2 % 16 * 4)
      simp [b64Encode, rstripEq, List.dropWhile, h3, h2, h1, padB64]
  | [b1, b2, b3] => by
      have h1 := b64Char_ne_61 (b1 / 4)
      have h2 := b64Char_ne_61 (b1 % 4 * 16 + b2 / 16)
      have h3 := b64Char_ne_61 (b2 % 16 * 4 + b3 / 64)
      have h4 := b64Char_ne_61 (b3 % 64)
      simp [b64Encode, rstripEq, List.dropWhile, h4, h3, h2, h1, padB64]
  | b1 :: b2 :: b3 :: b4 :: bs => by
      have henc : b64Encode (b1 :: b2 :: b3 :: b4 :: bs) =
          [b64Char (b1 / 4), b64Char (b1 % 4 * 16 + b2 / 16),
           b64Char (b2 % 16 * 4 + b3 / 64), b64Char (b3 % 64)] ++
          b64Encode (b4 :: bs) := rfl
      have hhead : rstripEq (b64Encode (b4 :: bs)) ≠ [] := by
        have : b64Encode (b4 :: bs) =
            b64Char (b4 / 4) :: (b64Encode (b4 :: bs)).tail := by
          cases bs with
          | nil => rfl
          | cons b5 t =>
              cases t with
              | nil => rfl
              | cons b6 t' => rfl
        rw [this]
        exact rstripEq_ne_nil_of_head (b64Char_ne_61 _)
      rw [henc, rstripEq_append hhead, padB64_append4 (by simp)]
      rw [padB64_rstripEq_b64Encode (b4 :: bs)]

theorem b64_unpad_roundtrip {bs : Str} (h : validStr bs) :
    b64Decode (padB64 (rstripEq (b64Encode bs))) = some bs := by
  rw [padB64_rstripEq_b64Encode]
  exact b64Decode_b64Encode bs h

theorem breakAt_of_not_mem {sep : Nat} : ∀ {s : Str}, sep ∉ s →
    breakAt sep s = none
  | [], _ => rfl
  | c :: rest, h => by
      have hc : c ≠ sep := fun he => h (by simp [he])
      have hrest : sep ∉ rest := fun hm => h (by simp [hm])
      simp [breakAt, hc, breakAt_of_not_mem hrest]

theorem breakAt_append {sep : Nat} : ∀ {a : Str} (b : Str), sep ∉ a →
    breakAt sep (a ++ sep :: b) = some (a, b)
  | [], b, _ => by simp [breakAt]
  | c :: a', b, h => by
      have hc : c ≠ sep := fun he => h (by simp [he])
      have ha : sep ∉ a' := fun hm => h (by simp [hm])
      simp [breakAt, hc, breakAt_append b ha]

theorem pySplit_two {a b : Str} (ha : (46 : Nat) ∉ a) (hb : (46 : Nat) ∉ b) :
    pySplit 46 2 (a ++ 46 :: b) = [a, b] := by
  simp [pySplit, breakAt_append b ha, breakAt_of_not_mem hb]

theorem pySplit_no_sep {sep m : Nat} {s : Str} (h : sep ∉ s) :
    pySplit sep m s = [s] := by
  cases m with
  | zero => rfl
  | succ m' => simp [pySplit, breakAt_of_not_mem h]

theorem pySplit_three {a b c : Str} (ha : (46 : Nat) ∉ a)
    (hb : (46 : Nat) ∉ b) :
    pySplit 46 2 (a ++ 46 :: (b ++ 46 :: c)) = [a, b, c] := by
  simp [pySplit, breakAt_append (b ++ 46 :: c) ha, breakAt_append c hb]

theorem pySplitAllAux_no_sep {sep : Nat} : ∀ {s : Str} (acc : Str), sep ∉ s →
    pySplitAllAux sep s acc = [acc.reverse ++ s]
  | [], acc, _ => by simp [pySplitAllAux]
  | c :: rest, acc, h => by
      have hc : c ≠ sep := fun he => h (by simp [he])
      have hrest : sep ∉ rest := fun hm => h (by simp [hm])
      simp [pySplitAllAux, hc, pySplitAllAux_no_sep (c :: acc) hrest]

theorem pySplitAll_no_sep {sep : Nat} {s : Str} (h : sep ∉ s) :
    pySplitAll sep s = [s] := by
  simpa [pySplitAll] using pySplitAllAux_no_sep [] h

theorem pySplitAllAux_append {sep : Nat} : ∀ {a : Str} (b acc : Str), sep ∉ a →
    pySplitAllAux sep (a ++ sep :: b) acc =
      (acc.reverse ++ a) :: pySplitAllAux sep b []
  | [], b, acc, _ => by simp [pySplitAllAux]
  | c :: a', b, acc, h => by
      have hc : c ≠ sep := fun he => h (by simp [he])
      have ha : sep ∉ a' := fun hm => h (by simp [hm])
      have := pySplitAllAux_append (a := a') b (c :: acc) ha
      simp [pySplitAllAux, hc, this]

theorem pySplitAll_append {sep : Nat} {a : Str} (b : Str) (h : sep ∉ a) :
    pySplitAll sep (a ++ sep :: b) = a :: pySplitAll sep b := by
  simpa [pySplitAll] using pySplitAllAux_append b [] h

theorem pySplitAllAux_ne_nil {sep : Nat} : ∀ (s acc : Str),
    pySplitAllAux sep s acc ≠ []
  | [], acc => by simp [pySplitAllAux]
  | c :: rest, acc => by
      by_cases hc : c = sep
      · simp [pySplitAllAux, hc]
      · simp only [pySplitAllAux, if_neg hc]
        exact pySplitAllAux_ne_nil rest (c :: acc)

theorem joinSep_cons {sep : Nat} {x : Str} {l : List Str} (h : l ≠ []) :
    joinSep sep (x :: l) = x ++ sep :: joinSep sep l := by
  cases l with
  | nil => exact absurd rfl h
  | cons y ys => rfl

theorem joinSep_pySplitAllAux {sep : Nat} : ∀ (s acc : Str),
    joinSep sep (pySplitAllAux sep s acc) = acc.reverse ++ s
  | [], acc => by simp [pySplitAllAux, joinSep]
  | c :: rest, acc => by
      by_cases hc : c = sep
      · subst hc
        simp only [pySplitAllAux, if_pos rfl, if_true]
        rw [joinSep_cons (pySplitAllAux_ne_nil rest [])]
        rw [joinSep_pySplitAllAux rest []]
        simp
      · simp only [pySplitAllAux, if_neg hc]
        rw [joinSep_pySplitAllAux rest (c :: acc)]
        simp

theorem joinSep_pySplitAll {sep : Nat} (s : Str) :
    joinSep sep (pySplitAll sep s) = s := by
  simpa [pySplitAll] using joinSep_pySplitAllAux s []

theorem stripPre_append : ∀ (p rest : Str), stripPre p (p ++ rest) = some rest
  | [], rest => rfl
  | c :: p', rest => by simp [stripPre, stripPre_append p' rest]

theorem parseJsonStrAux_escape : ∀ (s rest : Str),
    parseJsonStrAux (escapeJson s ++ 34 :: rest) = some (s, rest)
  | [], rest => by
      simp only [escapeJson, List.flatMap_nil, List.nil_append]
      rw [parseJsonStrAux.eq_def]
      simp
  | b :: s', rest => by
      by_cases h34 : b = 34
      · subst h34
        have : escapeJson (34 :: s') = 92 :: 34 :: escapeJson s' := by
          simp [escapeJson]
        rw [this]
        simp [parseJsonStrAux, parseJsonStrAux_escape s' rest]
      · by_cases h92 : b = 92
        · subst h92
          have : escapeJson (92 :: s') = 92 :: 92 :: escapeJson s' := by
            simp [escapeJson]
          rw [this]
          simp [parseJsonStrAux, parseJsonStrAux_escape s' rest]
        · have henc : escapeJson (b :: s') = b :: escapeJson s' := by
            simp [escapeJson, h34, h92]
          rw [henc, List.cons_append, parseJsonStrAux.eq_def]
          simp only [if_neg h34, if_neg h92]
          simp [parseJsonStrAux_escape s' rest]

theorem parseJsonStr_encode (s rest : Str) :
    parseJsonStr (encodeJsonStr s ++ rest) = some (s, rest) := by
  have : encodeJsonStr s ++ rest = 34 :: (escapeJson s ++ 34 :: rest) := by
    simp [encodeJsonStr]
  rw [this]
  simp [parseJsonStr, parseJsonStrAux_escape s rest]

theorem parseNatAux_not_digit : ∀ {rest : Str} (acc : Nat),
    headNotDigit rest → parseNatAux rest acc = (acc, rest)
  | [], acc, _ => rfl
  | c :: t, acc, h => by
      simp [headNotDigit] at h
      simp [parseNatAux]
      omega

theorem natToDecAux_digits : ∀ {n : Nat}, ∀ c ∈ natToDecAux n, 48 ≤ c ∧ c ≤ 57
  | n => by
      rw [natToDecAux]
      split
      · simp
      · intro c hc
        simp at hc
        rcases hc with h | h
        · exact natToDecAux_digits c h
        · omega
decreasing_by
  exact Nat.div_lt_self (Nat.pos_of_ne_zero (by assumption)) (by omega)

theorem parseNatAux_natToDecAux : ∀ (n : Nat) (rest : Str) (acc : Nat),
    parseNatAux (natToDecAux n ++ rest) acc =
      parseNatAux rest (acc * 10 ^ (natToDecAux n).length + n)
  | n, rest, acc => by
      by_cases hn : n = 0
      · subst hn
        rw [natToDecAux]
        simp
      · rw [natToDecAux, if_neg hn, List.append_assoc, List.singleton_append]
        rw [parseNatAux_natToDecAux (n / 10) ((48 + n % 10) :: rest) acc]
        have hd : 48 ≤ 48 + n % 10 ∧ 48 + n % 10 ≤ 57 := by omega
        simp only [parseNatAux, if_pos hd]
        congr 1
        rw [List.length_append, List.length_singleton, Nat.pow_succ]
        have h48 : 48 + n % 10 - 48 = n % 10 := by omega
        rw [h48]
        have hmod := Nat.div_add_mod n 10
        set k := 10 ^ (natToDecAux (n / 10)).length with hk
        calc (acc * k + n / 10) * 10 + n % 10
            = acc * (k * 10) + (n / 10 * 10 + n % 10) := by ring
          _ = acc * (k * 10) + n := by omega
decreasing_by
  exact Nat.div_lt_self (Nat.pos_of_ne_zero (by assumption)) (by omega)

theorem parseNatNum_eq_parseNatAux {n : Nat} {rest : Str}
    (h : headNotDigit rest) : parseNatAux rest n = (n, rest) :=
  parseNatAux_not_digit n h

theorem natToDecAux_ne_nil {n : Nat} (hn : n ≠ 0) : natToDecAux n ≠ [] := by
  rw [natToDecAux, if_neg hn]
  simp

theorem parseNatNum_natToDec (n : Nat) {rest : Str} (h : headNotDigit rest) :
    parseNatNum (natToDec n ++ rest) = some (n, rest) := by
  by_cases hn : n = 0
  · subst hn
    show parseNatNum ([48] ++ rest) = some (0, rest)
    simp [parseNatNum, parseNatAux_not_digit _ h]
  · unfold natToDec
    rw [if_neg hn]
    obtain ⟨c, t, hct⟩ : ∃ c t, natToDecAux n = c :: t := by
      cases hh : natToDecAux n with
      | nil => exact absurd hh (natToDecAux_ne_nil hn)
      | cons c t => exact ⟨c, t, rfl⟩
    have hcd : 48 ≤ c ∧ c ≤ 57 := by
      apply natToDecAux_digits (n := n) c
      rw [hct]
      simp
    have hmain := parseNatAux_natToDecAux n rest 0
    rw [hct] at hmain ⊢
    rw [List.cons_append] at hmain ⊢
    simp only [parseNatAux, if_pos hcd, Nat.zero_mul, Nat.zero_add] at hmain
    simp only [parseNatNum, if_pos hcd, hmain]
    rw [parseNatAux_not_digit _ h]

theorem headNotDigit_comma (t : Str) :
    headNotDigit (S ", \"user\": \x7b\"locale\": " ++ t) := by
  have h : S ", \"user\": \x7b\"locale\": " =
      44 :: S " \"user\": \x7b\"locale\": " := by decide
  rw [h, List.cons_append]
  simp [headNotDigit]

theorem decodeSignedData_encode (d : SignedData) :
    decodeSignedData (encodeSignedData d) = some d := by
  obtain ⟨alg, ia, loc, cty, oauth⟩ := d
  cases oauth with
  | none =>
      unfold encodeSignedData decodeSignedData
      simp only [List.append_assoc, List.nil_append, List.append_nil]
      simp only [stripPre_append, Option.bind_eq_bind, Option.some_bind,
        parseJsonStr_encode, parseNatNum_natToDec _ (headNotDigit_comma _)]
      have h125 : S "\x7d" = ([125] : Str) := by decide
      rw [if_pos h125]
  | some tu =>
      obtain ⟨tok, uid⟩ := tu
      unfold encodeSignedData decodeSignedData
      simp only [List.append_assoc, List.nil_append, List.append_nil]
      simp only [stripPre_append, Option.bind_eq_bind, Option.some_bind,
        parseJsonStr_encode, parseNatNum_natToDec _ (headNotDigit_comma _)]
      have h125 : S "\x7d" = ([125] : Str) := by decide
      have hne : ¬(S ", \"oauth_token\": " ++ (encodeJsonStr tok ++
          (S ", \"user_id\": " ++ (encodeJsonStr uid ++ S "\x7d"))) = [125]) := by
        intro h
        have hc := congrArg List.length h
        rw [List.length_append] at hc
        have h18 : (S ", \"oauth_token\": ").length = 17 := by decide
        rw [h18] at hc
        simp only [List.length_singleton] at hc
        omega
      rw [if_neg hne]
      rw [if_pos h125]

theorem dropWhile_idem {p : Nat → Bool} : ∀ (l : Str),
    List.dropWhile p (List.dropWhile p l) = List.dropWhile p l
  | [] => rfl
  | c :: t => by
      by_cases hc : p c
      · simp [List.dropWhile, hc, dropWhile_idem t]
      · simp [List.dropWhile, hc]

theorem rstripEq_idem (s : Str) : rstripEq (rstripEq s) = rstripEq s := by
  unfold rstripEq
  rw [List.reverse_reverse, dropWhile_idem]

theorem build_signed_request_parts (u : Str) (t : Option Str) (s : Str)
    (now : Nat) : build_signed_request u t s now =
      sigSegOf u t s now ++ 46 :: payloadSegOf u t now := by
  unfold build_signed_request sigSegOf payloadSegOf
  simp [rstripEq_idem]

theorem validStr_append {a b : Str} (ha : validStr a) (hb : validStr b) :
    validStr (a ++ b) := by
  intro c hc
  rcases List.mem_append.mp hc with h | h
  · exact ha c h
  · exact hb c h

theorem validStr_of_ascii {s : Str} (h : validAscii s) : validStr s :=
  fun b hb => by have := h b hb; omega

theorem validStr_escapeJson {s : Str} (h : validStr s) :
    validStr (escapeJson s) := by
  intro c hc
  unfold escapeJson at hc
  simp only [List.mem_flatMap] at hc
  obtain ⟨b, hb, hcb⟩ := hc
  by_cases h34 : b = 34
  · rw [if_pos h34] at hcb
    simp at hcb
    rcases hcb with h1 | h1 <;> omega
  · rw [if_neg h34] at hcb
    by_cases h92 : b = 92
    · rw [if_pos h92] at hcb
      simp at hcb
      rcases hcb with h1 | h1 <;> omega
    · rw [if_neg h92] at hcb
      simp at hcb
      rw [hcb]
      exact h b hb

theorem validStr_encodeJsonStr {s : Str} (h : validStr s) :
    validStr (encodeJsonStr s) := by
  intro c hc
  unfold encodeJsonStr at hc
  rcases (List.mem_cons).mp hc with h1 | h1
  · omega
  · rcases List.mem_append.mp h1 with h2 | h2
    · exact validStr_escapeJson h c h2
    · simp at h2; omega

theorem validStr_natToDec (n : Nat) : validStr (natToDec n) := by
  intro c hc
  unfold natToDec at hc
  split at hc
  · simp at hc; omega
  · have := natToDecAux_digits c hc
    omega

theorem validStr_encodeSignedData {d : SignedData}
    (halg : validStr d.algorithm) (hloc : validStr d.userLocale)
    (hcty : validStr d.userCountry)
    (hoauth : ∀ p ∈ d.oauth, validStr p.1 ∧ validStr p.2) :
    validStr (encodeSignedData d) := by
  intro c hc
  unfold encodeSignedData at hc
  simp only [List.mem_append] at hc
  rcases hc with (((((((((h | h) | h) | h) | h) | h) | h) | h) | h) | h) | h
  · exact (by decide : validStr (S "\x7b\"algorithm\": ")) c h
  · exact validStr_encodeJsonStr halg c h
  · exact (by decide : validStr (S ", \"issued_at\": ")) c h
  · exact validStr_natToDec _ c h
  · exact (by decide : validStr (S ", \"user\": \x7b\"locale\": ")) c h
  · exact validStr_encodeJsonStr hloc c h
  · exact (by decide : validStr (S ", \"country\": ")) c h
  · exact validStr_encodeJsonStr hcty c h
  · exact (by decide : validStr (S "\x7d")) c h
  · cases hd : d.oauth with
    | none => rw [hd] at h; simp at h
    | some p =>
        rw [hd] at h
        have hp := hoauth p (by simp [hd])
        simp only [List.mem_append] at h
        rcases h with ((hh | hh) | hh) | hh
        · exact (by decide : validStr (S ", \"oauth_token\": ")) c hh
        · exact validStr_encodeJsonStr hp.1 c hh
        · exact (by decide : validStr (S ", \"user_id\": ")) c hh
        · exact validStr_encodeJsonStr hp.2 c hh
  · exact (by decide : validStr (S "\x7d")) c h

theorem parse_build_ok (u : Str) (t : Option Str) (s : Str) (now : Nat)
    (hu : validAscii u) (ht : ∀ x ∈ t, validAscii x) (hs : validStr s) :
    parse_signed_request (build_signed_request u t s now) s =
      .ok { algorithm := S "HMAC-SHA256", issued_at := now,
            userLocale := S "en_US", userCountry := S "us",
            oauth := t.map fun x => (x, u) } := by
  have hvp : validStr (encodeSignedData
      { algorithm := S "HMAC-SHA256", issued_at := now,
        userLocale := S "en_US", userCountry := S "us",
        oauth := t.map fun x => (x, u) }) := by
    apply validStr_encodeSignedData
    · exact (by decide : validStr (S "HMAC-SHA256"))
    · exact (by decide : validStr (S "en_US"))
    · exact (by decide : validStr (S "us"))
    · intro p hp
      simp at hp
      obtain ⟨x, hx, hpx⟩ := hp
      rw [← hpx]
      exact ⟨validStr_of_ascii (ht x hx), validStr_of_ascii hu⟩
  have hp46 : (46 : Nat) ∉ payloadSegOf u t now := fun h =>
    not_46_mem_b64Encode _ (mem_rstripEq h)
  have hs46 : (46 : Nat) ∉ sigSegOf u t s now := fun h =>
    not_46_mem_b64Encode _ (mem_rstripEq h)
  have hvsig : validStr (hmacSha256 s (payloadSegOf u t now)) := by
    unfold hmacSha256
    refine validStr_append (validStr_append hs ?_) ?_
    · intro b hb; simp at hb; omega
    · intro b hb
      exact validStr_b64Encode _ b (mem_rstripEq hb)
  have hsigdec : b64Decode (padB64 (sigSegOf u t s now)) =
      some (hmacSha256 s (payloadSegOf u t now)) := b64_unpad_roundtrip hvsig
  have hpaydec : b64Decode (padB64 (payloadSegOf u t now)) =
      some (encodeSignedData
        { algorithm := S "HMAC-SHA256", issued_at := now,
          userLocale := S "en_US", userCountry := S "us",
          oauth := t.map fun x => (x, u) }) := b64_unpad_roundtrip hvp
  rw [build_signed_request_parts]
  unfold parse_signed_request
  rw [pySplit_two hs46 hp46]
  simp only [hsigdec, hpaydec, decodeSignedData_encode]
  have halg : ¬(pyUpper (S "HMAC-SHA256") ≠ S "HMAC-SHA256") := by decide
  rw [if_neg halg, if_neg (fun hne => hne rfl)]

theorem validStr_payloadSegOf (u : Str) (t : Option Str) (now : Nat) :
    validStr (payloadSegOf u t now) := by
  intro b hb
  exact validStr_b64Encode _ b (mem_rstripEq hb)

theorem sigSegOf_decode {u : Str} {t : Option Str} {s : Str} {now : Nat}
    (hs : validStr s) :
    b64Decode (padB64 (sigSegOf u t s now)) =
      some (hmacSha256 s (payloadSegOf u t now)) := by
  apply b64_unpad_roundtrip
  unfold hmacSha256
  refine validStr_append (validStr_append hs ?_) (validStr_payloadSegOf u t now)
  intro b hb
  simp at hb
  omega

theorem not_46_payloadSegOf (u : Str) (t : Option Str) (now : Nat) :
    (46 : Nat) ∉ payloadSegOf u t now := fun h =>
  not_46_mem_b64Encode _ (mem_rstripEq h)

theorem not_46_sigSegOf (u : Str) (t : Option Str) (s : Str) (now : Nat) :
    (46 : Nat) ∉ sigSegOf u t s now := fun h =>
  not_46_mem_b64Encode _ (mem_rstripEq h)

theorem parse_error_of_other_payload {s P sg : Str}
    (hsig : b64Decode (padB64 sg) = some (hmacSha256 s P))
    {tok : Str} {m : Str} {rest : List Str}
    (hsplit : pySplit 46 2 tok = sg :: m :: rest)
    (hm : m ≠ P) :
    ∃ e, parse_signed_request tok s = .error e := by
  unfold parse_signed_request
  rw [hsplit]
  simp only [hsig]
  cases hpd : b64Decode (padB64 m) with
  | none => exact ⟨.binasciiError, by simp⟩
  | some db =>
      cases hdec : decodeSignedData db with
      | none => exact ⟨.jsonError, by simp [hdec]⟩
      | some data =>
          by_cases halg : pyUpper data.algorithm = S "HMAC-SHA256"
          · refine ⟨.signatureMismatch, ?_⟩
            simp only [hdec]
            have hne2 : hmacSha256 s P ≠ hmacSha256 s m :=
              fun heq => hm (hmacSha256_inj heq).symm
            rw [if_neg (fun hne => hne halg), if_pos hne2]
          · exact ⟨.unknownAlgorithm, by simp [hdec, halg]⟩

theorem tamper_single_char_fails (u : Str) (t : Option Str) (s : Str)
    (now : Nat) (hs : validStr s) (i : Nat) (c : Nat)
    (hi : i < (payloadSegOf u t now).length)
    (hc : c ≠ (payloadSegOf u t now).get ⟨i, hi⟩) :
    ∃ e, parse_signed_request
      (sigSegOf u t s now ++ 46 :: (payloadSegOf u t now).set i c) s =
        .error e := by
  by_cases h46 : c = 46
  · subst h46
    have hset : (payloadSegOf u t now).set i 46 =
        (payloadSegOf u t now).take i ++
          46 :: (payloadSegOf u t now).drop (i + 1) :=
      List.set_eq_take_cons_drop _ hi
    rw [hset]
    have htake46 : (46 : Nat) ∉ (payloadSegOf u t now).take i := fun hmem =>
      not_46_payloadSegOf u t now (List.take_subset _ _ hmem)
    have hsplit := pySplit_three (c := (payloadSegOf u t now).drop (i + 1))
      (not_46_sigSegOf u t s now) htake46
    apply parse_error_of_other_payload (sigSegOf_decode hs) hsplit
    intro heq
    have hlen := congrArg List.length heq
    rw [List.length_take] at hlen
    omega
  · have hset46 : (46 : Nat) ∉ (payloadSegOf u t now).set i c := by
      intro hmem
      rcases List.mem_or_eq_of_mem_set hmem with h | h
      · exact not_46_payloadSegOf u t now h
      · exact h46 h.symm
    have hsplit := pySplit_two (not_46_sigSegOf u t s now) hset46
    apply parse_error_of_other_payload (sigSegOf_decode hs) hsplit
    intro heq
    apply hc
    have h1 : ((payloadSegOf u t now).set i c)[i]? = some c :=
      List.getElem?_set_eq_of_lt _ (by simpa using hi)
    rw [heq, List.getElem?_eq_getElem hi] at h1
    have h2 := Option.some_injective _ h1
    simpa [List.get_eq_getElem] using h2.symm

theorem breakAt_of_mem {sep : Nat} : ∀ {s : Str}, sep ∈ s →
    ∃ a b, breakAt sep s = some (a, b)
  | [], h => by simp at h
  | c :: rest, h => by
      by_cases hc : c = sep
      · exact ⟨[], rest, by simp [breakAt, hc]⟩
      · have hm : sep ∈ rest := by
          rcases List.mem_cons.mp h with h1 | h1
          · exact absurd h1.symm hc
          · exact h1
        obtain ⟨a, b, hab⟩ := breakAt_of_mem hm
        exact ⟨c :: a, b, by simp [breakAt, hc, hab]⟩

theorem pySplit_ne_nil {sep m : Nat} {s : Str} : pySplit sep m s ≠ [] := by
  cases m with
  | zero => simp [pySplit]
  | succ m' =>
      unfold pySplit
      cases breakAt sep s with
      | none => simp
      | some p => cases p; simp

theorem parse_ne_malformed_of_dot {tok secret : Str} (h : (46 : Nat) ∈ tok) :
    parse_signed_request tok secret ≠ .error .malformed := by
  obtain ⟨a, b, hab⟩ := breakAt_of_mem h
  have hsplit : pySplit 46 2 tok = a :: pySplit 46 1 b := by
    simp only [pySplit, hab]
  cases hb : pySplit 46 1 b with
  | nil => exact absurd hb pySplit_ne_nil
  | cons x rest =>
      rw [hb] at hsplit
      unfold parse_signed_request
      rw [hsplit]
      cases hA : b64Decode (padB64 a) with
      | none => simp [hA]
      | some sig =>
          cases hX : b64Decode (padB64 x) with
          | none => simp [hA, hX]
          | some db =>
              cases hD : decodeSignedData db with
              | none => simp [hA, hX, hD]
              | some data =>
                  by_cases halg : pyUpper data.algorithm = S "HMAC-SHA256"
                  · by_cases hsg : sig = hmacSha256 secret x
                    · simp [hA, hX, hD, halg, hsg]
                    · simp [hA, hX, hD, halg, hsg]
                  · simp [hA, hX, hD, halg]

theorem parse_malformed_iff (tok secret : Str) :
    parse_signed_request tok secret = .error .malformed ↔ (46 : Nat) ∉ tok := by
  constructor
  · intro h hmem
    exact parse_ne_malformed_of_dot hmem h
  · intro h
    unfold parse_signed_request
    rw [pySplit_no_sep h]

theorem fetch_fresh_app {a s : Str} (h47 : (47 : Nat) ∉ a)
    (hme : a ≠ S "me") (tok : Option Str) :
    Graph.fetch (freshGraph a s) tok a = .ok (.node (appNode a)) := by
  unfold Graph.fetch
  rw [pySplitAll_no_sep h47]
  simp [resolveMe, hme, freshGraph, lookupA, joinSep, appNode]

theorem splitAll_accounts_testusers :
    pySplitAll 47 (S "accounts/test-users") = [S "accounts", S "test-users"] := by
  decide

theorem fetch_fresh_me_none {a s : Str} :
    Graph.fetch (freshGraph a s) none (S "me") = .error .accessTokenRequired := by
  unfold Graph.fetch
  have : pySplitAll 47 (S "me") = [S "me"] := by decide
  rw [this]
  simp [resolveMe, joinSep]

theorem put_testusers_fresh {a s : Str} (h47 : (47 : Nat) ∉ a)
    (hme : a ≠ S "me") (tok : Option Str) (data : Payload) (rnd : Rnd) :
    Graph.put (freshGraph a s) tok a (S "accounts/test-users") data rnd =
      (.ok (.testUser (create_name rnd) (create_id rnd.idNum)
         (md5Hex (create_id rnd.idNum))), afterTestUserPut a s data rnd) := by
  unfold Graph.put
  rw [fetch_fresh_app h47 hme, pySplitAll_no_sep h47, splitAll_accounts_testusers]
  simp only [List.headD_cons, List.tail_cons, joinSep]
  rw [resolveMe.eq_def, if_neg hme]
  simp only [nodeConnFor, appNode, declaredConn, if_true, lookupA,
    Option.getD_none, build_access_token, install_user, Graph.set, freshGraph,
    afterTestUserPut, userNodeOf]
  by_cases hinst : data.installed = some true
  · simp [hinst, lookupA, assocSet]
  · simp [hinst, lookupA, assocSet]

theorem fetch_me_after_put {a s : Str} (data : Payload) (rnd : Rnd)
    (hau : a ≠ create_id rnd.idNum) :
    Graph.fetch (afterTestUserPut a s data rnd)
        (some (md5Hex (create_id rnd.idNum))) (S "me") =
      .ok (.node (userNodeOf rnd)) := by
  unfold Graph.fetch
  have hsp : pySplitAll 47 (S "me") = [S "me"] := by decide
  rw [hsp]
  simp only [List.headD_cons, List.tail_cons, joinSep]
  rw [resolveMe.eq_def, if_pos rfl]
  simp only [afterTestUserPut, lookupA, if_pos rfl]
  rw [assocSet.eq_def]
  simp only []
  rw [if_neg hau]
  simp [lookupA, assocSet, hau]

theorem put_accounts_other_fresh {a s sub : Str} (h47 : (47 : Nat) ∉ a)
    (hme : a ≠ S "me") (hsub : sub ≠ S "test-users") (tok : Option Str)
    (data : Payload) (rnd : Rnd) :
    Graph.put (freshGraph a s) tok a (S "accounts/" ++ sub) data rnd =
      (.error (.resourceNotFound sub), freshGraph a s) := by
  unfold Graph.put
  rw [fetch_fresh_app h47 hme, pySplitAll_no_sep h47]
  have hacc : S "accounts/" ++ sub = S "accounts" ++ 47 :: sub := by
    have : S "accounts/" = S "accounts" ++ [47] := by decide
    rw [this, List.append_assoc, List.singleton_append]
  rw [hacc, pySplitAll_append sub (by decide)]
  simp only [List.headD_cons, List.tail_cons, joinSep_pySplitAll]
  rw [resolveMe.eq_def, if_neg hme]
  simp only [nodeConnFor, appNode, declaredConn, if_true, lookupA,
    Option.getD_none]
  rw [if_neg hsub]

theorem fetch_deep_conn_fresh {a s : Str} (h47 : (47 : Nat) ∉ a)
    (hme : a ≠ S "me") (tok : Option Str) :
    Graph.fetch (freshGraph a s) tok (a ++ S "/accounts/test-users") =
      .error (.resourceNotFound (S "accounts/test-users")) := by
  unfold Graph.fetch
  have h1 : a ++ S "/accounts/test-users" =
      a ++ 47 :: S "accounts/test-users" := by
    have : S "/accounts/test-users" = 47 :: S "accounts/test-users" := by decide
    rw [this]
  rw [h1, pySplitAll_append _ h47, splitAll_accounts_testusers]
  simp only [List.headD_cons, List.tail_cons]
  rw [resolveMe.eq_def, if_neg hme]
  simp only [freshGraph, lookupA, if_pos rfl]
  have hjoin : joinSep 47 [S "accounts", S "test-users"] =
      S "accounts/test-users" := by decide
  rw [hjoin]
  have hne : ¬(S "accounts/test-users" = ([] : Str)) := by decide
  simp only [if_true]
  rw [if_neg hne]
  have hconn : nodeConnEntries (appNode a) (S "accounts/test-users") =
      .error (.resourceNotFound (S "accounts/test-users")) := by
    simp only [nodeConnEntries, appNode, lookupA, declaredConn]
    rw [if_neg (by decide : ¬(S "accounts/test-users" = S "accounts"))]
  simp [appNode] at hconn
  simp [hconn]

theorem fetch_accounts_fresh {a s : Str} (h47 : (47 : Nat) ∉ a)
    (hme : a ≠ S "me") (tok : Option Str) :
    Graph.fetch (freshGraph a s) tok (a ++ S "/accounts") =
      .ok (.connData []) := by
  unfold Graph.fetch
  have h1 : a ++ S "/accounts" = a ++ 47 :: S "accounts" := by
    have : S "/accounts" = 47 :: S "accounts" := by decide
    rw [this]
  rw [h1, pySplitAll_append _ h47, pySplitAll_no_sep (by decide)]
  simp only [List.headD_cons, List.tail_cons, joinSep]
  rw [resolveMe.eq_def, if_neg hme]
  simp only [freshGraph, lookupA, if_pos rfl]
  have hne : ¬(S "accounts" = ([] : Str)) := by decide
  simp only [if_true]
  rw [if_neg hne]
  simp [nodeConnEntries, lookupA, declaredConn, graphConnection_get]

theorem fetch_me_none_token (g : GraphState) :
    Graph.fetch g none (S "me") = .error .accessTokenRequired := by
  unfold Graph.fetch
  have h : pySplitAll 47 (S "me") = [S "me"] := by decide
  rw [h]
  simp only [List.headD_cons, List.tail_cons, joinSep]
  rw [resolveMe.eq_def, if_pos rfl]

theorem fetch_me_unknown_token (g : GraphState) (t : Str)
    (h : lookupA t g.token_users = none) :
    Graph.fetch g (some t) (S "me") = .error (.keyError t) := by
  unfold Graph.fetch
  have hsp : pySplitAll 47 (S "me") = [S "me"] := by decide
  rw [hsp]
  simp only [List.headD_cons, List.tail_cons, joinSep]
  rw [resolveMe.eq_def, if_pos rfl]
  simp [h]

theorem hexDigit_inj {x y : Nat} (hx : x < 16) (hy : y < 16)
    (h : hexDigit x = hexDigit y) : x = y := by
  unfold hexDigit at h
  split_ifs at h <;> omega

theorem md5Hex_inj : ∀ {s t : Str}, validStr s → validStr t →
    md5Hex s = md5Hex t → s = t
  | [], [], _, _, _ => rfl
  | [], b :: t', _, _, h => by simp [md5Hex] at h
  | a :: s', [], _, _, h => by simp [md5Hex] at h
  | a :: s', b :: t', hs, ht, h => by
      simp only [md5Hex, List.flatMap_cons, List.cons_append,
        List.nil_append] at h
      injection h with h1 h'
      injection h' with h2 h3
      have ha := hs a (by simp)
      have hb := ht b (by simp)
      have e1 := hexDigit_inj (by omega) (by omega) h1
      have e2 := hexDigit_inj (by omega) (by omega) h2
      have hab : a = b := by omega
      have htail : s' = t' :=
        md5Hex_inj (fun x hx => hs x (by simp [hx]))
          (fun x hx => ht x (by simp [hx])) h3
      rw [hab, htail]

theorem lookupA_mem {α : Type} {k : Str} {v : α} :
    ∀ {l : List (Str × α)}, lookupA k l = some v → (k, v) ∈ l
  | [], h => by simp [lookupA] at h
  | (k', v') :: rest, h => by
      by_cases hk : k' = k
      · rw [lookupA, if_pos hk] at h
        injection h with h
        simp [hk, h]
      · rw [lookupA, if_neg hk] at h
        simp [lookupA_mem h]

theorem lookupA_eq_none_iff {α : Type} {k : Str} :
    ∀ {l : List (Str × α)}, lookupA k l = none ↔ ∀ p ∈ l, p.1 ≠ k
  | [] => by simp [lookupA]
  | (k', v') :: rest => by
      by_cases hk : k' = k
      · rw [lookupA, if_pos hk]
        simp [hk]
      · rw [lookupA, if_neg hk]
        rw [lookupA_eq_none_iff]
        constructor
        · intro h p hp
          rcases List.mem_cons.mp hp with h1 | h1
          · rw [h1]; exact hk
          · exact h p h1
        · intro h p hp
          exact h p (by simp [hp])

theorem tokenMapsInverse_of_invariant {g : GraphState}
    (h : TokenInvariant g) : tokenMapsInverse g = true := by
  unfold tokenMapsInverse
  rw [Bool.and_eq_true]
  constructor <;> rw [List.all_eq_true] <;> intro p hp
  · have := h.2.1 p hp
    simp [this]
  · have := h.2.2 p hp
    simp [this]

theorem build_access_token_invariant {g : GraphState} {u : Str}
    (hg : TokenInvariant g) (hu : validStr u) :
    (build_access_token g u).1 = md5Hex u ∧
    TokenInvariant (build_access_token g u).2 ∧
    lookupA u (build_access_token g u).2.user_tokens = some (md5Hex u) := by
  unfold build_access_token
  cases hl : lookupA u g.user_tokens with
  | some t =>
      have hmem : (u, t) ∈ g.user_tokens := lookupA_mem hl
      have ht := hg.1 _ hmem
      have ht1 : t = md5Hex u := ht.1
      refine ⟨ht1, hg, ?_⟩
      rw [hl, ht1]
  | none =>
      have hfresh : ∀ p ∈ g.user_tokens, p.1 ≠ u := lookupA_eq_none_iff.mp hl
      refine ⟨rfl, ⟨?_, ?_, ?_⟩, ?_⟩
      · intro p hp
        rcases List.mem_cons.mp hp with h1 | h1
        · rw [h1]
          exact ⟨rfl, hu⟩
        · exact hg.1 p h1
      · intro p hp
        rcases List.mem_cons.mp hp with h1 | h1
        · rw [h1]
          simp [lookupA]
        · have hold := hg.2.1 p h1
          have hp1 := hg.1 p h1
          have hne : ¬(md5Hex u = p.2) := by
            intro heq
            have : u = p.1 :=
              md5Hex_inj hu hp1.2 (heq.trans hp1.1)
            exact hfresh p h1 this.symm
          simp only [lookupA, if_neg hne]
          exact hold
      · intro q hq
        rcases List.mem_cons.mp hq with h1 | h1
        · rw [h1]
          simp [lookupA]
        · have hold := hg.2.2 q h1
          have hne : ¬(u = q.2) := by
            intro heq
            rw [← heq] at hold
            rw [hl] at hold
            cases hold
          simp only [lookupA, if_neg hne]
          exact hold
      · simp [lookupA]

theorem natToHexAux_bytes : ∀ {n : Nat}, ∀ c ∈ natToHexAux n, c < 256
  | n => by
      rw [natToHexAux]
      split
      · simp
      · intro c hc
        simp at hc
        rcases hc with h | h
        · exact natToHexAux_bytes c h
        · rw [h]
          unfold hexDigit
          have : n % 16 < 16 := by omega
          split <;> omega
decreasing_by
  exact Nat.div_lt_self (Nat.pos_of_ne_zero (by assumption)) (by omega)

theorem validStr_create_id (n : Nat) : validStr (create_id n) := by
  intro c hc
  unfold create_id at hc
  rcases List.mem_append.mp hc with h | h
  · exact (by decide : validStr (S "testuser")) c h
  · unfold natToHex at h
    split at h
    · simp at h; omega
    · exact natToHexAux_bytes c h

theorem applyOp_invariant {g : GraphState} (hg : TokenInvariant g) :
    ∀ {op : Op}, OpValid op → TokenInvariant (applyOp g op)
  | .buildToken u, hv => (build_access_token_invariant hg hv).2.1
  | .install u, _ => by
      show TokenInvariant (install_user g u)
      unfold install_user
      split <;> exact hg
  | .uninstall u, _ => hg
  | .setNode i n, _ => hg
  | .putOp tok p cn data rnd, _ => by
      show TokenInvariant (Graph.put g tok p cn data rnd).2
      unfold Graph.put
      split
      · exact hg
      · exact hg
      · split
        · exact hg
        · dsimp only
          split
          · exact hg
          · split
            · exact hg
            · split
              · apply (build_access_token_invariant ?_
                  (validStr_create_id rnd.idNum)).2.1
                split
                · show TokenInvariant (install_user _ _)
                  unfold install_user
                  split <;> exact hg
                · exact hg
              · exact hg

/-- Runs a list of operations preserving the token-map invariant. -/
theorem applyOps_invariant {g : GraphState} (hg : TokenInvariant g) :
    ∀ {ops : List Op}, (∀ op ∈ ops, OpValid op) →
      TokenInvariant (applyOps g ops)
  | [], _ => hg
  | op :: rest, h =>
      applyOps_invariant (applyOp_invariant hg (h op (by simp)))
        (fun o ho => h o (by simp [ho]))

theorem freshGraph_invariant (a s : Str) : TokenInvariant (freshGraph a s) := by
  refine ⟨?_, ?_, ?_⟩ <;> intro p hp <;> simp [freshGraph] at hp

theorem natToHexAux_hex : ∀ {n : Nat}, ∀ c ∈ natToHexAux n, isHexLower c = true
  | n => by
      rw [natToHexAux]
      split
      · simp
      · intro c hc
        simp at hc
        rcases hc with h | h
        · exact natToHexAux_hex c h
        · rw [h]
          unfold hexDigit isHexLower
          have : n % 16 < 16 := by omega
          split <;> simp <;> omega
decreasing_by
  exact Nat.div_lt_self (Nat.pos_of_ne_zero (by assumption)) (by omega)

theorem natToHex_hex {n : Nat} : ∀ c ∈ natToHex n, isHexLower c = true := by
  intro c hc
  unfold natToHex at hc
  split at hc
  · simp at hc
    rw [hc]
    decide
  · exact natToHexAux_hex c hc

theorem natToHex_ne_nil (n : Nat) : natToHex n ≠ [] := by
  unfold natToHex
  split
  · simp
  · rw [natToHexAux]
    rw [if_neg (by assumption)]
    simp

theorem isTestuserId_create_id (n : Nat) : isTestuserId (create_id n) = true := by
  unfold isTestuserId create_id
  have hdrop : (S "testuser" ++ natToHex n).drop 8 = natToHex n := by
    have : (S "testuser").length = 8 := by decide
    rw [← this, List.drop_left]
  rw [hdrop]
  have hpre : (S "testuser").isPrefixOf (S "testuser" ++ natToHex n) = true := by
    rw [List.isPrefixOf_iff_prefix]
    exact List.prefix_append _ _
  rw [hpre]
  simp only [Bool.true_and]
  rw [Bool.and_eq_true]
  constructor
  · simp [natToHex_ne_nil n]
  · rw [List.all_eq_true]
    exact natToHex_hex

theorem friends_iterate (tok : Option Str) (i : Str) (data : Option Payload) :
    ∀ (k : Nat), (fun es => friendsConnection_put tok i data es)^[k] [] =
      List.replicate k (Entry.idDict i)
  | 0 => rfl
  | k + 1 => by
      rw [Function.iterate_succ_apply', friends_iterate tok i data k]
      unfold friendsConnection_put
      rw [← List.replicate_succ']

theorem cookie_decode_cases (cookies : List (Str × Str))
    (app_id app_secret : Str) (now : Int) (cookie : Str)
    (args : List (Str × Str)) (payload : Str)
    (hc : (lookupA (S "fbs_" ++ app_id) cookies).getD [] = cookie)
    (hargs : args = parseQsLast (pyStrip 34 cookie))
    (hpayload : payload = ((sortStrs (args.map Prod.fst)).filter
        (fun k => decide (k ≠ S "sig"))).flatMap
        (fun k => k ++ 61 :: (lookupA k args).getD [])) :
    (cookie = [] → get_user_from_cookie cookies app_id app_secret now = .ok none) ∧
    (cookie ≠ [] → lookupA (S "expires") args = none →
      get_user_from_cookie cookies app_id app_secret now = .error .keyError) ∧
    (∀ ev, cookie ≠ [] → lookupA (S "expires") args = some ev →
      parsePyInt ev = none →
      get_user_from_cookie cookies app_id app_secret now = .error .valueError) ∧
    (∀ ev e, cookie ≠ [] → lookupA (S "expires") args = some ev →
      parsePyInt ev = some e →
      (get_user_from_cookie cookies app_id app_secret now = .ok (some args) ↔
        lookupA (S "sig") args = some (md5Hex (payload ++ app_secret)) ∧
          (e = 0 ∨ now < e)) ∧
      (get_user_from_cookie cookies app_id app_secret now = .ok (some args) ∨
       get_user_from_cookie cookies app_id app_secret now = .ok none)) := by
  unfold get_user_from_cookie
  rw [hc]
  dsimp only
  rw [← hargs]
  refine ⟨fun he => by rw [if_pos he], ?_, ?_, ?_⟩
  · intro hne hexp
    rw [if_neg hne, ← hpayload, hexp]
  · intro ev hne hexp hint
    rw [if_neg hne, ← hpayload, hexp]
    dsimp only
    rw [hint]
  · intro ev e hne hexp hint
    rw [if_neg hne, ← hpayload, hexp]
    dsimp only
    rw [hint]
    dsimp only
    constructor
    · constructor
      · intro h
        by_cases hcond : lookupA (S "sig") args =
            some (md5Hex (payload ++ app_secret)) ∧ (e = 0 ∨ now < e)
        · exact hcond
        · rw [if_neg hcond] at h
          cases h
      · intro hcond
        rw [if_pos hcond]
    · by_cases hcond : lookupA (S "sig") args =
          some (md5Hex (payload ++ app_secret)) ∧ (e = 0 ∨ now < e)
      · rw [if_pos hcond]
        exact Or.inl rfl
      · rw [if_neg hcond]
        exact Or.inr rfl

theorem build_access_token_stable {g : GraphState} {u t : Str}
    (h : lookupA u g.user_tokens = some t) :
    build_access_token g u = (t, g) := by
  unfold build_access_token
  rw [h]

/-- C1: for every user identifier `u`, non-null oauth token `t` and app
secret `s` (byte strings; identifiers and tokens printable ASCII, the
domain where the JSON model is exact), parsing a freshly built signed
request under the same secret succeeds and returns the payload whose
`user_id` is `u` and `oauth_token` is `t` besides the algorithm,
`issued_at` and user-locale fields; when `t` is null the decoded payload
carries no `user_id`/`oauth_token` fields (`oauth := none`). -/
theorem C1_signed_request_round_trip (u : Str) (t : Option Str) (s : Str)
    (now : Nat) (hu : validAscii u) (ht : ∀ x ∈ t, validAscii x)
    (hs : validStr s) :
    parse_signed_request (build_signed_request u t s now) s =
      .ok { algorithm := S "HMAC-SHA256", issued_at := now,
            userLocale := S "en_US", userCountry := S "us",
            oauth := t.map fun x => (x, u) } :=
  parse_build_ok u t s now hu ht hs

/-- Witness for C1 at a concrete identifier, token and secret, for both a
non-null and a null token. -/
theorem C1_witness :
    parse_signed_request
        (build_signed_request (S "42") (some (S "tok99")) (S "s3cr3t") 0)
        (S "s3cr3t") =
      .ok { algorithm := S "HMAC-SHA256", issued_at := 0,
            userLocale := S "en_US", userCountry := S "us",
            oauth := some (S "tok99", S "42") } ∧
    parse_signed_request (build_signed_request (S "42") none (S "s3cr3t") 0)
        (S "s3cr3t") =
      .ok { algorithm := S "HMAC-SHA256", issued_at := 0,
            userLocale := S "en_US", userCountry := S "us",
            oauth := none } :=
  ⟨C1_signed_request_round_trip (S "42") (some (S "tok99")) (S "s3cr3t") 0
      (by decide) (fun x hx => by simp at hx; subst hx; decide) (by decide),
   C1_signed_request_round_trip (S "42") none (S "s3cr3t") 0
      (by decide) (fun x hx => by simp at hx) (by decide)⟩

/-- C2: a test-user provisioning write with sub-path `test-users` on the
application node's `accounts` connection creates a fresh user whose
identifier matches `testuser[0-9a-f]+`, marks it installed when the
payload carries `installed = true`, and returns a mapping holding the
user's name, id and an access token; fetching `"me"` with that token
yields the stored node whose `id` field is the same generated
identifier; a write with any other sub-path fails with
`ResourceNotFoundError` and leaves the store unchanged. -/
theorem C2_test_user_provisioning (a s : Str) (tok : Option Str)
    (data : Payload) (rnd : Rnd) (h47 : (47 : Nat) ∉ a) (hme : a ≠ S "me")
    (hau : a ≠ create_id rnd.idNum) :
    Graph.put (freshGraph a s) tok a (S "accounts/test-users") data rnd =
      (.ok (.testUser (create_name rnd) (create_id rnd.idNum)
        (md5Hex (create_id rnd.idNum))), afterTestUserPut a s data rnd) ∧
    isTestuserId (create_id rnd.idNum) = true ∧
    (data.installed = some true →
      create_id rnd.idNum ∈ (afterTestUserPut a s data rnd).installed_users) ∧
    (∃ node, Graph.fetch (afterTestUserPut a s data rnd)
        (some (md5Hex (create_id rnd.idNum))) (S "me") = .ok (.node node) ∧
      lookupA (S "id") node.fields = some (create_id rnd.idNum)) ∧
    (∀ sub, sub ≠ S "test-users" →
      Graph.put (freshGraph a s) tok a (S "accounts/" ++ sub) data rnd =
        (.error (.resourceNotFound sub), freshGraph a s)) := by
  refine ⟨put_testusers_fresh h47 hme tok data rnd,
    isTestuserId_create_id rnd.idNum, ?_,
    ⟨userNodeOf rnd, fetch_me_after_put data rnd hau, ?_⟩,
    fun sub hsub => put_accounts_other_fresh h47 hme hsub tok data rnd⟩
  · intro hinst
    simp [afterTestUserPut, hinst]
  · simp [userNodeOf, lookupA, show ¬(S "name" = S "id") from by decide]

/-- Witness for C2 at a concrete application name, secret, payload and
drawn random values. -/
theorem C2_witness :
    Graph.put (freshGraph (S "app") (S "s3cr3t")) none (S "app")
        (S "accounts/test-users") { installed := some true }
        ⟨0, S "Ann", S "Bell"⟩ =
      (.ok (.testUser (create_name ⟨0, S "Ann", S "Bell"⟩) (create_id 0)
        (md5Hex (create_id 0))),
       afterTestUserPut (S "app") (S "s3cr3t") { installed := some true }
         ⟨0, S "Ann", S "Bell"⟩) ∧
    isTestuserId (create_id 0) = true ∧
    (Payload.installed { installed := some true } = some true →
      create_id 0 ∈ (afterTestUserPut (S "app") (S "s3cr3t")
        { installed := some true } ⟨0, S "Ann", S "Bell"⟩).installed_users) ∧
    (∃ node, Graph.fetch (afterTestUserPut (S "app") (S "s3cr3t")
        { installed := some true } ⟨0, S "Ann", S "Bell"⟩)
        (some (md5Hex (create_id 0))) (S "me") = .ok (.node node) ∧
      lookupA (S "id") node.fields = some (create_id 0)) ∧
    (∀ sub, sub ≠ S "test-users" →
      Graph.put (freshGraph (S "app") (S "s3cr3t")) none (S "app")
          (S "accounts/" ++ sub) { installed := some true }
          ⟨0, S "Ann", S "Bell"⟩ =
        (.error (.resourceNotFound sub), freshGraph (S "app") (S "s3cr3t"))) :=
  C2_test_user_provisioning (S "app") (S "s3cr3t") none
    { installed := some true } ⟨0, S "Ann", S "Bell"⟩
    (by decide) (by decide) (by decide)

/-- C3 counterexample: on a fresh store, resolving `"me"` with an unknown
token fails with python's builtin KeyError, which is not a typed error of
the simulator's taxonomy, refuting the `InvalidTokenError` part of the
claim as stated. -/
theorem C3_counterexample :
    Graph.fetch (freshGraph (S "app") (S "sec")) (some (S "badtoken"))
        (S "me") = .error (.keyError (S "badtoken")) ∧
    GraphError.isTyped (.keyError (S "badtoken")) = false := by
  exact ⟨by decide, rfl⟩

/-- C3 (amended): resolving `"me"` with a null access token always fails
with the typed `Error("access token required")`, and resolving `"me"`
with a token that maps to no known user always fails — but with python's
untyped KeyError escaping the token-user dict lookup, not with a typed
`InvalidTokenError` of the simulator's taxonomy. -/
theorem C3_me_resolution (g : GraphState) (t : Str) :
    Graph.fetch g none (S "me") = .error .accessTokenRequired ∧
    (lookupA t g.token_users = none →
      Graph.fetch g (some t) (S "me") = .error (.keyError t) ∧
      GraphError.isTyped (.keyError t) = false) :=
  ⟨fetch_me_none_token g, fun h => ⟨fetch_me_unknown_token g t h, rfl⟩⟩

/-- Witness for C3 (amended) on a fresh store and a concrete token. -/
theorem C3_witness :
    Graph.fetch (freshGraph (S "a") (S "k")) none (S "me") =
      .error .accessTokenRequired ∧
    (Graph.fetch (freshGraph (S "a") (S "k")) (some (S "x")) (S "me") =
      .error (.keyError (S "x")) ∧
     GraphError.isTyped (.keyError (S "x")) = false) :=
  ⟨(C3_me_resolution (freshGraph (S "a") (S "k")) (S "x")).1,
   (C3_me_resolution (freshGraph (S "a") (S "k")) (S "x")).2 (by decide)⟩

/-- C4: token issuance is idempotent and deterministic — after any valid
operation sequence from a fresh graph, issuing a token twice for the
same user returns the identical string and leaves the state unchanged,
the token is the digest of the user identifier, and the token-to-user
and user-to-token maps are mutually inverse. -/
theorem C4_token_issuance (a s : Str) (ops : List Op)
    (hops : ∀ op ∈ ops, OpValid op) (u : Str) (hu : validStr u) :
    (build_access_token (applyOps (freshGraph a s) ops) u).1 =
      (build_access_token
        (build_access_token (applyOps (freshGraph a s) ops) u).2 u).1 ∧
    (build_access_token
        (build_access_token (applyOps (freshGraph a s) ops) u).2 u).2 =
      (build_access_token (applyOps (freshGraph a s) ops) u).2 ∧
    (build_access_token (applyOps (freshGraph a s) ops) u).1 = md5Hex u ∧
    tokenMapsInverse (applyOps (freshGraph a s) ops) = true := by
  have hinv := applyOps_invariant (freshGraph_invariant a s) hops
  have h1 := build_access_token_invariant hinv hu
  have h2 := build_access_token_stable h1.2.2
  refine ⟨?_, ?_, h1.1, tokenMapsInverse_of_invariant hinv⟩
  · rw [h2, h1.1]
  · rw [h2]

/-- Witness for C4 after one prior issuance for a different user. -/
theorem C4_witness :
    (build_access_token (applyOps (freshGraph (S "app") (S "sec"))
        [Op.buildToken (S "alice")]) (S "bob")).1 =
      (build_access_token (build_access_token (applyOps
        (freshGraph (S "app") (S "sec")) [Op.buildToken (S "alice")])
        (S "bob")).2 (S "bob")).1 ∧
    (build_access_token (build_access_token (applyOps
        (freshGraph (S "app") (S "sec")) [Op.buildToken (S "alice")])
        (S "bob")).2 (S "bob")).2 =
      (build_access_token (applyOps (freshGraph (S "app") (S "sec"))
        [Op.buildToken (S "alice")]) (S "bob")).2 ∧
    (build_access_token (applyOps (freshGraph (S "app") (S "sec"))
        [Op.buildToken (S "alice")]) (S "bob")).1 = md5Hex (S "bob") ∧
    tokenMapsInverse (applyOps (freshGraph (S "app") (S "sec"))
        [Op.buildToken (S "alice")]) = true :=
  C4_token_issuance (S "app") (S "sec") [Op.buildToken (S "alice")]
    (fun op hop => by
      simp at hop
      subst hop
      exact (by decide : validStr (S "alice")))
    (S "bob") (by decide)

/-- C5: a friends-connection write followed by a read yields the written
entry, a dict whose only field is `id` equal to the sub-path identifier,
with every payload field discarded (the result does not depend on the
payload at all). -/
theorem C5_friends_write_read (tok : Option Str) (otherId : Str)
    (data : Option Payload) (entries : List Entry) :
    graphConnection_get tok (friendsConnection_put tok otherId data entries) =
      entries ++ [Entry.idDict otherId] ∧
    Entry.dictFields (Entry.idDict otherId) = some [(S "id", otherId)] :=
  ⟨rfl, rfl⟩

/-- C6 counterexample: two consecutive friends writes of the same
identifier leave two entries, not one — the code never deduplicates. -/
theorem C6_counterexample :
    graphConnection_get none (friendsConnection_put none (S "42") none
        (friendsConnection_put none (S "42") none [])) =
      [Entry.idDict (S "42"), Entry.idDict (S "42")] ∧
    (graphConnection_get none (friendsConnection_put none (S "42") none
        (friendsConnection_put none (S "42") none []))).length ≠ 1 :=
  ⟨rfl, by decide⟩

/-- C6 (amended): the friends connection appends one `{id}` entry per
write and does not deduplicate, so after `k` writes of the same
identifier the connection holds `k` identical entries, not one per
distinct friend. -/
theorem C6_no_dedup (tok : Option Str) (i : Str) (data : Option Payload)
    (es : List Entry) (k : Nat) :
    friendsConnection_put tok i data es = es ++ [Entry.idDict i] ∧
    (fun l => friendsConnection_put tok i data l)^[k] [] =
      List.replicate k (Entry.idDict i) :=
  ⟨rfl, friends_iterate tok i data k⟩

/-- C7 counterexample: appending `".x"` to a validly built token yields a
token with two dots (three split parts), yet `parse_signed_request`
succeeds instead of failing with the malformed-token ValueError, because
`split('.', 2)` keeps the first two parts and drops the rest. -/
theorem C7_counterexample :
    (build_signed_request (S "u123") (some (S "tok")) (S "sec") 0 ++
      [46, 120]).count 46 = 2 ∧
    parse_signed_request
        (build_signed_request (S "u123") (some (S "tok")) (S "sec") 0 ++
          [46, 120]) (S "sec") =
      .ok { algorithm := S "HMAC-SHA256", issued_at := 0,
            userLocale := S "en_US", userCountry := S "us",
            oauth := some (S "tok", S "u123") } := by
  exact ⟨by decide, by decide⟩

/-- C7 (amended): `parse_signed_request` fails with the malformed-token
ValueError exactly when the token contains no `.` at all; a token with
one or more dots is split with `maxsplit=2`, the first two parts are
used, anything after the second dot is ignored, and parsing proceeds
(possibly succeeding). -/
theorem C7_malformed_iff (tok secret : Str) :
    parse_signed_request tok secret = .error .malformed ↔ (46 : Nat) ∉ tok :=
  parse_malformed_iff tok secret

/-- C8 counterexample: a present cookie whose parsed fields lack
`expires` makes `get_user_from_cookie` raise python's KeyError at
`int(args["expires"])` instead of returning null, even though its
signature does not match — refuting "never raises a failure". -/
theorem C8_counterexample :
    get_user_from_cookie [(S "fbs_app", S "uid=1")] (S "app") (S "sec") 0 =
      .error .keyError := by
  decide

/-- C8 (amended): cookie decoding returns the parsed field mapping
exactly when the MD5 digest over the sorted `key=value` concatenation of
the non-signature fields plus the app secret equals the supplied `sig`
and the expiry is zero or in the future; a missing cookie yields null
and a mismatch or expired stamp yields null — provided the parsed cookie
carries an integer `expires` field, for a cookie without one raises
KeyError and one with a non-numeric value raises ValueError. -/
theorem C8_cookie_decode (cookies : List (Str × Str))
    (app_id app_secret : Str) (now : Int) (cookie : Str)
    (args : List (Str × Str)) (payload : Str)
    (hc : (lookupA (S "fbs_" ++ app_id) cookies).getD [] = cookie)
    (hargs : args = parseQsLast (pyStrip 34 cookie))
    (hpayload : payload = ((sortStrs (args.map Prod.fst)).filter
        (fun k => decide (k ≠ S "sig"))).flatMap
        (fun k => k ++ 61 :: (lookupA k args).getD [])) :
    (cookie = [] → get_user_from_cookie cookies app_id app_secret now = .ok none) ∧
    (cookie ≠ [] → lookupA (S "expires") args = none →
      get_user_from_cookie cookies app_id app_secret now = .error .keyError) ∧
    (∀ ev, cookie ≠ [] → lookupA (S "expires") args = some ev →
      parsePyInt ev = none →
      get_user_from_cookie cookies app_id app_secret now = .error .valueError) ∧
    (∀ ev e, cookie ≠ [] → lookupA (S "expires") args = some ev →
      parsePyInt ev = some e →
      (get_user_from_cookie cookies app_id app_secret now = .ok (some args) ↔
        lookupA (S "sig") args = some (md5Hex (payload ++ app_secret)) ∧
          (e = 0 ∨ now < e)) ∧
      (get_user_from_cookie cookies app_id app_secret now = .ok (some args) ∨
       get_user_from_cookie cookies app_id app_secret now = .ok none)) :=
  cookie_decode_cases cookies app_id app_secret now cookie args payload
    hc hargs hpayload

/-- Witness for C8 (amended) on a concrete cookie carrying `expires=0`. -/
theorem C8_witness :
    (S "expires=0&uid=10" = [] →
      get_user_from_cookie [(S "fbs_app", S "expires=0&uid=10")] (S "app")
        (S "sec") 0 = .ok none) ∧
    (S "expires=0&uid=10" ≠ [] →
      lookupA (S "expires")
        (parseQsLast (pyStrip 34 (S "expires=0&uid=10"))) = none →
      get_user_from_cookie [(S "fbs_app", S "expires=0&uid=10")] (S "app")
        (S "sec") 0 = .error .keyError) ∧
    (∀ ev, S "expires=0&uid=10" ≠ [] →
      lookupA (S "expires")
        (parseQsLast (pyStrip 34 (S "expires=0&uid=10"))) = some ev →
      parsePyInt ev = none →
      get_user_from_cookie [(S "fbs_app", S "expires=0&uid=10")] (S "app")
        (S "sec") 0 = .error .valueError) ∧
    (∀ ev e, S "expires=0&uid=10" ≠ [] →
      lookupA (S "expires")
        (parseQsLast (pyStrip 34 (S "expires=0&uid=10"))) = some ev →
      parsePyInt ev = some e →
      (get_user_from_cookie [(S "fbs_app", S "expires=0&uid=10")] (S "app")
          (S "sec") 0 =
        .ok (some (parseQsLast (pyStrip 34 (S "expires=0&uid=10")))) ↔
        lookupA (S "sig") (parseQsLast (pyStrip 34 (S "expires=0&uid=10"))) =
          some (md5Hex ((((sortStrs ((parseQsLast (pyStrip 34
            (S "expires=0&uid=10"))).map Prod.fst)).filter
            (fun k => decide (k ≠ S "sig"))).flatMap
            (fun k => k ++ 61 :: (lookupA k (parseQsLast (pyStrip 34
              (S "expires=0&uid=10")))).getD [])) ++ S "sec")) ∧
          (e = 0 ∨ (0 : Int) < e)) ∧
      (get_user_from_cookie [(S "fbs_app", S "expires=0&uid=10")] (S "app")
          (S "sec") 0 =
        .ok (some (parseQsLast (pyStrip 34 (S "expires=0&uid=10")))) ∨
       get_user_from_cookie [(S "fbs_app", S "expires=0&uid=10")] (S "app")
          (S "sec") 0 = .ok none)) :=
  C8_cookie_decode [(S "fbs_app", S "expires=0&uid=10")] (S "app") (S "sec")
    0 (S "expires=0&uid=10")
    (parseQsLast (pyStrip 34 (S "expires=0&uid=10")))
    ((((sortStrs ((parseQsLast (pyStrip 34
        (S "expires=0&uid=10"))).map Prod.fst)).filter
        (fun k => decide (k ≠ S "sig"))).flatMap
        (fun k => k ++ 61 :: (lookupA k (parseQsLast (pyStrip 34
          (S "expires=0&uid=10")))).getD [])))
    (by decide) rfl rfl

/-- C9 counterexample: in the validly built token for user `u123`, token
`tok`, secret `sec`, changing the payload segment's character 20 from
`S` (83) to `R` (82) corrupts the encoded algorithm field, so
verification fails with the unknown-algorithm error — not with the
signature-mismatch error the claim demands. -/
theorem C9_counterexample :
    build_signed_request (S "u123") (some (S "tok")) (S "sec") 0 =
      sigSegOf (S "u123") (some (S "tok")) (S "sec") 0 ++
        46 :: payloadSegOf (S "u123") (some (S "tok")) 0 ∧
    (payloadSegOf (S "u123") (some (S "tok")) 0).getD 20 0 = 83 ∧
    parse_signed_request
        (sigSegOf (S "u123") (some (S "tok")) (S "sec") 0 ++
          46 :: (payloadSegOf (S "u123") (some (S "tok")) 0).set 20 82)
        (S "sec") = .error .unknownAlgorithm := by
  exact ⟨by decide, by decide, by decide⟩

/-- C9 (amended): changing any single character of a built token's
payload segment makes verification under the same secret fail — but not
necessarily with the signature-mismatch error: tamperings that corrupt
the algorithm field or the payload encoding fail with the
unknown-algorithm or decoding errors first. -/
theorem C9_tamper_fails (u : Str) (t : Option Str) (s : Str) (now : Nat)
    (hs : validStr s) (i : Nat) (c : Nat)
    (hi : i < (payloadSegOf u t now).length)
    (hc : c ≠ (payloadSegOf u t now).get ⟨i, hi⟩) :
    ∃ e, parse_signed_request
      (sigSegOf u t s now ++ 46 :: (payloadSegOf u t now).set i c) s =
        .error e :=
  tamper_single_char_fails u t s now hs i c hi hc

/-- Witness for C9 (amended) at a concrete token and tampering. -/
theorem C9_witness :
    ∃ e, parse_signed_request
      (sigSegOf (S "u1") (some (S "t1")) (S "sec") 0 ++
        46 :: (payloadSegOf (S "u1") (some (S "t1")) 0).set 20 82)
      (S "sec") = .error e :=
  C9_tamper_fails (S "u1") (some (S "t1")) (S "sec") 0 (by decide) 20 82
    (by decide) (by decide)

/-- C10: the simulator's write and read paths split connection paths
asymmetrically — `put` dispatches on the first `/`-component of the
relation path, so writing via `accounts/test-users` succeeds, while
`fetch` treats the whole remainder after the object identifier as one
relation name, so fetching `<app>/accounts/test-users` fails with
`ResourceNotFoundError` even though fetching `<app>/accounts`
succeeds. -/
theorem C10_path_split_asymmetry (a s : Str) (tok : Option Str)
    (data : Payload) (rnd : Rnd) (h47 : (47 : Nat) ∉ a)
    (hme : a ≠ S "me") :
    (Graph.put (freshGraph a s) tok a (S "accounts/test-users") data rnd).1 =
      .ok (.testUser (create_name rnd) (create_id rnd.idNum)
        (md5Hex (create_id rnd.idNum))) ∧
    Graph.fetch (freshGraph a s) tok (a ++ S "/accounts/test-users") =
      .error (.resourceNotFound (S "accounts/test-users")) ∧
    Graph.fetch (freshGraph a s) tok (a ++ S "/accounts") =
      .ok (.connData []) := by
  refine ⟨?_, fetch_deep_conn_fresh h47 hme tok,
    fetch_accounts_fresh h47 hme tok⟩
  rw [put_testusers_fresh h47 hme tok data rnd]

/-- Witness for C10 at a concrete application name. -/
theorem C10_witness :
    (Graph.put (freshGraph (S "app") (S "sec")) none (S "app")
        (S "accounts/test-users") {} ⟨1, S "Jo", S "Day"⟩).1 =
      .ok (.testUser (create_name ⟨1, S "Jo", S "Day"⟩) (create_id 1)
        (md5Hex (create_id 1))) ∧
    Graph.fetch (freshGraph (S "app") (S "sec")) none
        (S "app" ++ S "/accounts/test-users") =
      .error (.resourceNotFound (S "accounts/test-users")) ∧
    Graph.fetch (freshGraph (S "app") (S "sec")) none
        (S "app" ++ S "/accounts") = .ok (.connData []) :=
  C10_path_split_asymmetry (S "app") (S "sec") none {} ⟨1, S "Jo", S "Day"⟩
    (by decide) (by decide)
